import Mathlib

/-!
Verification of the post-composition and scheduled-publication pipeline of the
bot-posts repository, against a shallow embedding of its Python sources.

Strings are embedded as `List Char` (Python `str` is a sequence of code
points).  Python exceptions are embedded as `Except PyExc`.  External
collaborators (the Telegram transport, the dateutil fallback parser, the
APScheduler timer table) are embedded as explicit oracles / explicit state.

Deliberate precision bounds of the embedding, noted where they apply:
datetimes are modelled at minute precision with a single fixed-offset
timezone (no DST), numeric parsing models ASCII digits (no underscore
grouping, no non-ASCII digits), and regex character classes are modelled
over their ASCII meaning.
-/

/-- Python exception classes relevant to the embedded code paths. -/
inductive PyExc where
  | valueError
  | overflowError
  | typeError
  | keyError
  | otherError
deriving DecidableEq, Repr, Inhabited

/-! ## Python string primitives (over List Char) -/

/-- Python whitespace for str.strip / str.split (ASCII part of Python \s). -/
def isPyWS (c : Char) : Bool :=
  c = ' ' || c = '\t' || c = '\n' || c = '\r' || c = '\x0b' || c = '\x0c'

/-- str.strip with no arguments: drop whitespace from both ends. -/
def pyStrip (l : List Char) : List Char :=
  ((l.dropWhile isPyWS).reverse.dropWhile isPyWS).reverse

/-- Lowercasing of one code point as Python str.lower does on the
alphabets this program uses: ASCII A-Z and Cyrillic А-Я / Ё. -/
def pyLowerChar (c : Char) : Char :=
  if 65 ≤ c.toNat ∧ c.toNat ≤ 90 then Char.ofNat (c.toNat + 32)
  else if 0x410 ≤ c.toNat ∧ c.toNat ≤ 0x42F then Char.ofNat (c.toNat + 0x20)
  else if c.toNat = 0x401 then Char.ofNat 0x451
  else c

/-- str.lower. -/
def pyLower (l : List Char) : List Char := l.map pyLowerChar

/-- str.split(sep) for a one-character separator: keeps empty pieces. -/
def splitOnC (c : Char) : List Char → List (List Char)
  | [] => [[]]
  | x :: xs =>
    if x = c then [] :: splitOnC c xs
    else
      match splitOnC c xs with
      | [] => [[x]]
      | y :: ys => (x :: y) :: ys

/-- str.split() with no argument: split on whitespace runs, no empty pieces. -/
def pySplitWS : List Char → List (List Char)
  | [] => []
  | x :: xs =>
    if isPyWS x then pySplitWS xs
    else (x :: xs.takeWhile (fun c => !isPyWS c)) ::
      pySplitWS (xs.dropWhile (fun c => !isPyWS c))
termination_by l => l.length
decreasing_by
  · simp only [List.length_cons]; omega
  · simp only [List.length_cons]
    exact Nat.lt_succ_of_le (List.dropWhile_sublist _).length_le

/-- Split at the first occurrence of a sub-sequence, Python
line.split(sep, 1) when sep occurs; none when it does not occur. -/
def splitOnceSub (sep : List Char) : List Char → Option (List Char × List Char)
  | [] => if sep.isPrefixOf ([] : List Char) then some ([], []) else none
  | x :: xs =>
    if sep.isPrefixOf (x :: xs) then some ([], (x :: xs).drop sep.length)
    else (splitOnceSub sep xs).map (fun p => (x :: p.1, p.2))

/-- Python substring containment: sep in line. -/
def containsSub (l sep : List Char) : Bool := (splitOnceSub sep l).isSome

/-- ASCII decimal digit. -/
def isDigitC (c : Char) : Bool := 48 ≤ c.toNat && c.toNat ≤ 57

/-- Value of a list of ASCII digits, most significant first. -/
def digitsVal (ds : List Char) : Nat :=
  ds.foldl (fun a c => a * 10 + (c.toNat - 48)) 0

/-- Python int(str): surrounding whitespace allowed, optional sign, one or
more ASCII digits; anything else raises ValueError.  (Underscore digit
grouping and non-ASCII digits are not modelled.) -/
def pyIntCore (ds : List Char) : Except PyExc Nat :=
  if ds ≠ [] ∧ ds.all isDigitC then .ok (digitsVal ds) else .error .valueError

def pyInt (l : List Char) : Except PyExc Int :=
  match pyStrip l with
  | [] => .error .valueError
  | c :: ds =>
    if c = '+' then (pyIntCore ds).map (fun (n : Nat) => (n : Int))
    else if c = '-' then (pyIntCore ds).map (fun (n : Nat) => -(n : Int))
    else (pyIntCore (c :: ds)).map (fun (n : Nat) => (n : Int))

/-! ## Calendar model (Python datetime at minute precision, fixed offset) -/

/-- A Python datetime.date. -/
structure PyDate where
  year : Int
  month : Int
  day : Int
deriving DecidableEq, Repr, Inhabited

/-- A Python datetime at minute precision; aware is the tzinfo flag.
The configured timezone is modelled as a fixed offset, so aware
comparisons coincide with naive wall-clock comparisons. -/
structure PyDateTime where
  date : PyDate
  hour : Int
  minute : Int
  aware : Bool
deriving DecidableEq, Repr, Inhabited

def isLeapYear (y : Int) : Bool :=
  (y % 4 = 0 && y % 100 ≠ 0) || y % 400 = 0

def daysInMonth (y m : Int) : Int :=
  if m = 2 then (if isLeapYear y then 29 else 28)
  else if m = 4 ∨ m = 6 ∨ m = 9 ∨ m = 11 then 30
  else 31

/-- Day number of a civil date (days-from-civil, proleptic Gregorian). -/
def rataDie (d : PyDate) : Int :=
  let y := if d.month ≤ 2 then d.year - 1 else d.year
  let era := Int.fdiv y 400
  let yoe := y - era * 400
  let mp := (d.month + 9) % 12
  let doy := Int.fdiv (153 * mp + 2) 5 + d.day - 1
  let doe := yoe * 365 + Int.fdiv yoe 4 - Int.fdiv yoe 100 + doy
  era * 146097 + doe - 719468

/-- Absolute minutes of a datetime; Python datetime comparison. -/
def toMin (dt : PyDateTime) : Int :=
  rataDie dt.date * 1440 + dt.hour * 60 + dt.minute

/-- date + timedelta(days=1); Python raises OverflowError past year 9999. -/
def nextDayE (d : PyDate) : Except PyExc PyDate :=
  if d.day < daysInMonth d.year d.month then .ok { d with day := d.day + 1 }
  else if d.month < 12 then .ok ⟨d.year, d.month + 1, 1⟩
  else if d.year < 9999 then .ok ⟨d.year + 1, 1, 1⟩
  else .error .overflowError

/-- date + timedelta(days=n) for a small natural n. -/
def addDaysE (d : PyDate) : Nat → Except PyExc PyDate
  | 0 => .ok d
  | n + 1 => (addDaysE d n).bind nextDayE

/-- The datetime(year, month, day, hour, minute) constructor with its
ValueError range validation; the result is naive. -/
def mkDateTimeE (y mo d h mi : Int) : Except PyExc PyDateTime :=
  if 1 ≤ y ∧ y ≤ 9999 ∧ 1 ≤ mo ∧ mo ≤ 12 ∧ 1 ≤ d ∧ d ≤ daysInMonth y mo
      ∧ 0 ≤ h ∧ h ≤ 23 ∧ 0 ≤ mi ∧ mi ≤ 59 then
    .ok ⟨⟨y, mo, d⟩, h, mi, false⟩
  else .error .valueError

/-- pytz tz.localize: attach the configured timezone to a naive datetime. -/
def localize (dt : PyDateTime) : PyDateTime := { dt with aware := true }

/-- Calendar validity of a datetime value (the states Python can hold). -/
def PyDateTime.Valid (dt : PyDateTime) : Prop :=
  1 ≤ dt.date.year ∧ dt.date.year ≤ 9999 ∧ 1 ≤ dt.date.month ∧ dt.date.month ≤ 12
    ∧ 1 ≤ dt.date.day ∧ dt.date.day ≤ daysInMonth dt.date.year dt.date.month
    ∧ 0 ≤ dt.hour ∧ dt.hour ≤ 23 ∧ 0 ≤ dt.minute ∧ dt.minute ≤ 59

instance (dt : PyDateTime) : Decidable dt.Valid := by
  unfold PyDateTime.Valid; infer_instance

/-! ## Embedding of src/app/services/datetime_parse.py -/

/-- The RUSSIAN_DAYS dict of datetime_parse.py, in insertion order. -/
def russianDays : List (List Char × Nat) :=
  [("сегодня".toList, 0), ("завтра".toList, 1), ("послезавтра".toList, 2)]

/-- The user-facing example-based hint returned on any parse failure. -/
def dtErrorHint : List Char :=
  ("❌ Не удалось распознать дату/время.\n\nИспользуйте формат:\n• <code>15:30</code> — сегодня\n• <code>завтра 15:30</code>\n• <code>25.01 15:30</code>\n• <code>сейчас</code> — опубликовать немедленно").toList

/-- Result type of parse_datetime: (parsed datetime or None, error or None). -/
abbrev DtParseAns := Option PyDateTime × Option (List Char)

/-- The bare HH:MM branch of parse_datetime (lines 71-86), which sits in an
inner try whose except catches only ValueError.  none models the caught
ValueError fall-through (pass); some models a return or a non-ValueError
exception escaping to the outer handler (the OverflowError of the one-day
rollover past year 9999). -/
def branchTime (target_date : PyDate) (time_part : List Char) (now : PyDateTime) :
    Option (Except PyExc DtParseAns) :=
  match splitOnC ':' time_part with
  | [a, b] =>
    match pyInt a, pyInt b with
    | .ok h, .ok mi =>
      if 0 ≤ h ∧ h ≤ 23 ∧ 0 ≤ mi ∧ mi ≤ 59 then
        if toMin (localize ⟨target_date, h, mi, false⟩) ≤ toMin now
            ∧ target_date = now.date then
          match nextDayE target_date with
          | .ok d2 => some (.ok (some ⟨d2, h, mi, true⟩, none))
          | .error e => some (.error e)
        else some (.ok (some (localize ⟨target_date, h, mi, false⟩), none))
      else none
    | _, _ => none
  | _ => none

/-- The DATE TIME branch of parse_datetime (lines 89-106): day, month,
optional year, then hours:minutes, then the validating datetime
constructor; every ValueError here escapes to the outer handler. -/
def branchDate (dateParts : List (List Char)) (time_str : List Char)
    (now : PyDateTime) : Except PyExc DtParseAns :=
  (pyInt (dateParts.getD 0 [])).bind (fun d =>
  (pyInt (dateParts.getD 1 [])).bind (fun mo =>
  (if dateParts.length > 2 then pyInt (dateParts.getD 2 []) else .ok now.date.year).bind
    (fun y =>
      match splitOnC ':' time_str with
      | [a, b] =>
        (pyInt a).bind (fun h =>
        (pyInt b).bind (fun mi =>
        (mkDateTimeE y mo d h mi).bind (fun dt =>
        .ok (some (localize dt), none))))
      | _ => .error .valueError)))

/-- The dateutil fallback call (lines 108-112): dateutil is an external
collaborator, embedded as the oracle fb; a naive result is localized. -/
def fallbackAns (t : List Char) (fb : List Char → Except PyExc PyDateTime) :
    Except PyExc DtParseAns :=
  (fb t).map (fun dt => (some (if dt.aware then dt else localize dt), none))

/-- The DATE TIME branch guard (line 95): at least two dot-separated date
parts, otherwise fall through to the fallback parser. -/
def dateOrFallback (dateParts : List (List Char)) (time_str t : List Char)
    (now : PyDateTime) (fb : List Char → Except PyExc PyDateTime) :
    Except PyExc DtParseAns :=
  if dateParts.length ≥ 2 then branchDate dateParts time_str now
  else fallbackAns t fb

/-- The code after a failed or skipped HH:MM branch (lines 89-112): the
two-token DATE TIME shape with the slash-to-dot rewrite, else fallback. -/
def restAns (time_part t : List Char) (now : PyDateTime)
    (fb : List Char → Except PyExc PyDateTime) : Except PyExc DtParseAns :=
  match pySplitWS time_part with
  | [date_str, time_str] =>
    dateOrFallback (splitOnC '.' (date_str.map (fun c => if c = '/' then '.' else c)))
      time_str t now fb
  | _ => fallbackAns t fb

/-- parse_datetime after the day-prefix scan: the HH:MM branch (whose
ValueError is caught, pass), then the rest of the cascade; t is the full
stripped lowered text. -/
def afterDayScan (target_date : PyDate) (time_part t : List Char) (now : PyDateTime)
    (fb : List Char → Except PyExc PyDateTime) : Except PyExc DtParseAns :=
  if containsSub time_part [':'] ∧ (pySplitWS time_part).length = 1 then
    match branchTime target_date time_part now with
    | some r => r
    | none => restAns time_part t now fb
  else restAns time_part t now fb

/-- The body of parse_datetime guarded by the outer try (lines 57-112):
day-prefix scan (the target_date arithmetic can overflow), then the
branch cascade. -/
def parseBody (t : List Char) (now : PyDateTime)
    (fb : List Char → Except PyExc PyDateTime) : Except PyExc DtParseAns :=
  match russianDays.find? (fun p => p.1.isPrefixOf t) with
  | some (name, off) =>
    match addDaysE now.date off with
    | .ok td => afterDayScan td (pyStrip (t.drop name.length)) t now fb
    | .error e => .error e
  | none => afterDayScan now.date t t now fb

/-- parse_datetime of src/app/services/datetime_parse.py.  now models
datetime.now(tz) (aware); fb models the external dateutil fallback
parser.  The outer except Exception turns any escaped exception into the
structured (None, hint) answer. -/
def parse_datetime_lowered (t : List Char) (now : PyDateTime)
    (fb : List Char → Except PyExc PyDateTime) : DtParseAns :=
  if t = "now".toList ∨ t = "сейчас".toList ∨ t = "немедленно".toList then
    (some { now with aware := true }, none)
  else
    match parseBody t { now with aware := true } fb with
    | .ok r => r
    | .error _ => (none, some dtErrorHint)

def parse_datetime (text : List Char) (now : PyDateTime)
    (fb : List Char → Except PyExc PyDateTime) : DtParseAns :=
  parse_datetime_lowered (pyLower (pyStrip text)) now fb

/-! ## Embedding of src/app/utils/telegram.py -/

/-- All splits of a list into a prefix and a suffix, in order. -/
def allSplits (l : List Char) : List (List Char × List Char) :=
  (List.range (l.length + 1)).map (fun i => (l.take i, l.drop i))

def isAsciiAlpha (c : Char) : Bool :=
  (65 ≤ c.toNat && c.toNat ≤ 90) || (97 ≤ c.toNat && c.toNat ≤ 122)

def isAsciiAlnum (c : Char) : Bool := isAsciiAlpha c || isDigitC c

/-- One domain label: [A-Z0-9](?:[A-Z0-9-]{0,61}[A-Z0-9])? with IGNORECASE,
so 1..63 chars, alphanumeric at both ends, alphanumeric or hyphen inside. -/
def isDomainLabel (s : List Char) : Bool :=
  s ≠ [] && s.length ≤ 63
    && s.all (fun c => isAsciiAlnum c || c = '-')
    && isAsciiAlnum (s.headD ' ') && isAsciiAlnum (s.getLastD ' ')

/-- The TLD part: [A-Z]{2,6} with IGNORECASE. -/
def isTld (s : List Char) : Bool :=
  2 ≤ s.length && s.length ≤ 6 && s.all isAsciiAlpha

/-- The domain alternative of the host: (?:label\.)+[A-Z]{2,6}\.?.
Labels and the TLD contain no dot, so the regex decomposition follows the
dots of the string. -/
def isDomainHost (s : List Char) : Bool :=
  let parts := splitOnC '.' s
  let core := if parts.getLastD [] = [] then parts.dropLast else parts
  2 ≤ core.length && (core.dropLast.all isDomainLabel) && isTld (core.getLastD [])

/-- The IP alternative of the host: \d{1,3}\.\d{1,3}\.\d{1,3}\.\d{1,3}. -/
def isIpHost (s : List Char) : Bool :=
  match splitOnC '.' s with
  | [a, b, c, d] => [a, b, c, d].all (fun g => g ≠ [] && g.length ≤ 3 && g.all isDigitC)
  | _ => false

def asciiLowerChar (c : Char) : Char :=
  if 65 ≤ c.toNat ∧ c.toNat ≤ 90 then Char.ofNat (c.toNat + 32) else c

/-- The host group of the URL regex: domain, localhost, or IP. -/
def isHost (s : List Char) : Bool :=
  isDomainHost s || s.map asciiLowerChar = "localhost".toList || isIpHost s

/-- The optional port group: (?::\d+)?. -/
def isPort (s : List Char) : Bool :=
  s = [] || (s.headD ' ' = ':' && s.tail ≠ [] && s.tail.all isDigitC)

/-- The path group: (?:/?|[/?]\S+). -/
def isPathShape (s : List Char) : Bool :=
  s = [] || s = ['/']
    || ((s.headD ' ' = '/' || s.headD ' ' = '?') && s.tail ≠ []
        && s.tail.all (fun c => !isPyWS c))

/-- The path group followed by the $ anchor, which in Python also matches
just before one final newline. -/
def isPathEnd (s : List Char) : Bool :=
  isPathShape s || (s.getLastD ' ' = '\n' && isPathShape s.dropLast)

/-- is_valid_url of src/app/utils/telegram.py: the anchored
^https?://(domain|localhost|IP)(?::\d+)?(?:/?|[/?]\S+)$ regex with
IGNORECASE, as an existential over the split points the backtracking
engine can choose. -/
def is_valid_url (url : List Char) : Bool :=
  let low := url.map asciiLowerChar
  let rest :=
    if "https://".toList.isPrefixOf low then some (url.drop 8)
    else if "http://".toList.isPrefixOf low then some (url.drop 7)
    else none
  match rest with
  | none => false
  | some r =>
    (allSplits r).any (fun hp =>
      isHost hp.1 && (allSplits hp.2).any (fun pp =>
        isPort pp.1 && isPathEnd pp.2))

/-- The separator token list of parse_button_text, in list order.  The
third entry is the literal three characters U+00E2 U+20AC U+201D found in
the source (a mojibake em dash), surrounded by spaces. -/
def buttonSeparators : List (List Char) :=
  [[' ', '-', ' '], [' ', '|', ' '],
   [' ', Char.ofNat 0xE2, Char.ofNat 0x20AC, Char.ofNat 0x201D, ' ']]

/-- The body of parse_button_text for one already-split line: strip, skip
blank, pick the first separator (in list order) contained in the line,
split once at it, strip both parts, keep the pair only if the URL part
passes is_valid_url. -/
def lineButton (rawLine : List Char) : Option (List Char × List Char) :=
  if pyStrip rawLine = [] then none
  else
    match buttonSeparators.find? (fun sep => containsSub (pyStrip rawLine) sep) with
    | none => none
    | some sep =>
      match splitOnceSub sep (pyStrip rawLine) with
      | none => none
      | some (a, b) =>
        if is_valid_url (pyStrip b) then some (pyStrip a, pyStrip b) else none

/-- parse_button_text of src/app/utils/telegram.py: strip the whole text,
split into lines, and run the per-line loop accumulating valid pairs. -/
def parse_button_text (text : List Char) : List (List Char × List Char) :=
  (splitOnC '\n' (pyStrip text)).foldl
    (fun acc line =>
      match lineButton line with
      | some p => acc ++ [p]
      | none => acc) []

/-! ## Embedding of src/app/db/models.py records -/

def statusDraft : List Char := "draft".toList
def statusScheduled : List Char := "scheduled".toList
def statusPublished : List Char := "published".toList
def statusFailed : List Char := "failed".toList

structure DraftButtonR where
  text : List Char
  url : List Char
  row : Nat
  position : Nat
deriving DecidableEq, Repr, Inhabited

structure DraftMediaR where
  file_id : List Char
  file_unique_id : List Char
  media_type : List Char
  caption : Option (List Char)
  position : Nat
deriving DecidableEq, Repr, Inhabited

structure DraftPostR where
  id : Nat
  author_id : Int
  author_username : Option (List Char)
  text : Option (List Char)
  scheduled_at : Option PyDateTime
  status : List Char
  published_message_id : Option Int
  published_at : Option PyDateTime
  scheduler_job_id : Option (List Char)
  disable_link_preview : Bool
  disable_notification : Bool
  media : List DraftMediaR
  buttons : List DraftButtonR
deriving DecidableEq, Repr, Inhabited

/-! ## Embedding of src/app/db/repo.py (DraftPostRepository and the store) -/

abbrev Store := List DraftPostR

def get_by_id (store : Store) (pid : Nat) : Option DraftPostR :=
  store.find? (fun p => p.id == pid)

def updatePost (store : Store) (pid : Nat) (f : DraftPostR → DraftPostR) : Store :=
  store.map (fun p => if p.id = pid then f p else p)

/-- mark_published (repo.py lines 120-132): sets status, message id and
publication time; it does not touch scheduler_job_id. -/
def mark_published (store : Store) (pid : Nat) (mid : Int) (t : PyDateTime) : Store :=
  updatePost store pid (fun p =>
    { p with status := statusPublished, published_message_id := some mid,
             published_at := some t })

/-- mark_failed (repo.py lines 134-136). -/
def mark_failed (store : Store) (pid : Nat) : Store :=
  updatePost store pid (fun p => { p with status := statusFailed })

/-- get_scheduled (repo.py lines 63-70): all posts with status scheduled,
ordered by scheduled_at ascending (rows without a scheduled_at sort
first; the relative order of NULLs does not matter to any property
stated here). -/
def schedAscLe (a b : DraftPostR) : Bool :=
  match a.scheduled_at, b.scheduled_at with
  | some x, some y => decide (toMin x ≤ toMin y)
  | none, _ => true
  | some _, none => false

def get_scheduled (store : Store) : List DraftPostR :=
  (store.filter (fun p => p.status == statusScheduled)).insertionSort
    (fun a b => schedAscLe a b = true)

/-- Values passed as SQLAlchemy constructor keyword arguments. -/
inductive PyVal where
  | pnone
  | pint (i : Int)
  | pstr (s : List Char)
  | pdt (d : PyDateTime)
  | plist (l : List PyVal)
deriving Repr, Inhabited

/-- The attribute names mapped on the DraftPost declarative model
(models.py lines 32-85 plus the IDMixin / TimestampMixin columns and the
two relationships).  There is no text_entities attribute. -/
def draftPostMappedNames : List (List Char) :=
  ["id".toList, "created_at".toList, "updated_at".toList,
   "author_id".toList, "author_username".toList, "text".toList,
   "scheduled_at".toList, "status".toList, "published_message_id".toList,
   "published_at".toList, "scheduler_job_id".toList,
   "disable_link_preview".toList, "disable_notification".toList,
   "media".toList, "buttons".toList]

/-- The SQLAlchemy declarative constructor: every keyword argument must
name a mapped attribute of the class, otherwise TypeError. -/
def sqlaInit (mapped : List (List Char)) (kwargs : List (List Char × PyVal)) :
    Except PyExc (List (List Char × PyVal)) :=
  if kwargs.all (fun kv => mapped.contains kv.1) then .ok kwargs
  else .error .typeError

def optStrVal : Option (List Char) → PyVal
  | some s => .pstr s
  | none => .pnone

/-- DraftPostRepository.create (repo.py lines 18-38): builds the kwargs it
always passes to DraftPost(...), including text_entities. -/
def DraftPostRepository_create (author_id : Int) (author_username : Option (List Char))
    (text : Option (List Char)) (text_entities : Option (List PyVal))
    (scheduled_at : Option PyDateTime) (status : List Char) :
    Except PyExc (List (List Char × PyVal)) :=
  sqlaInit draftPostMappedNames
    [("author_id".toList, .pint author_id),
     ("author_username".toList, optStrVal author_username),
     ("text".toList, optStrVal text),
     ("text_entities".toList,
        match text_entities with
        | some l => .plist l
        | none => .pnone),
     ("scheduled_at".toList,
        match scheduled_at with
        | some d => .pdt d
        | none => .pnone),
     ("status".toList, .pstr status)]

/-! ## Embedding of src/app/services/publishing.py -/

structure InlineKeyboardButtonR where
  text : List Char
  url : List Char
deriving DecidableEq, Repr, Inhabited

abbrev Keyboard := List (List InlineKeyboardButtonR)

def dictAddBtn (d : List (Nat × List InlineKeyboardButtonR)) (k : Nat)
    (b : InlineKeyboardButtonR) : List (Nat × List InlineKeyboardButtonR) :=
  match d with
  | [] => [(k, [b])]
  | (k', bs) :: rest =>
    if k' = k then (k', bs ++ [b]) :: rest else (k', bs) :: dictAddBtn rest k b

def dictFindBtn (d : List (Nat × List InlineKeyboardButtonR)) (k : Nat) :
    List InlineKeyboardButtonR :=
  match d with
  | [] => []
  | (k', bs) :: rest => if k' = k then bs else dictFindBtn rest k

/-- The second loop of build_keyboard: emit the grouped rows in ascending
key order. -/
def keyboardRows (rows : List (Nat × List InlineKeyboardButtonR)) : Keyboard :=
  ((rows.map (fun p => p.1)).insertionSort (fun a b => a ≤ b)).map
    (fun k => dictFindBtn rows k)

/-- build_keyboard (publishing.py lines 26-45): group buttons into an
insertion-ordered dict keyed by row, then emit rows by sorted key. -/
def build_keyboard (buttons : List DraftButtonR) : Option Keyboard :=
  if buttons = [] then none
  else some (keyboardRows
    (buttons.foldl (fun d btn => dictAddBtn d btn.row ⟨btn.text, btn.url⟩) []))

def knownMediaTypes : List (List Char) :=
  ["photo".toList, "video".toList, "document".toList, "audio".toList,
   "animation".toList]

/-- media_classes.get(media_type, InputMediaPhoto) and the analogous
send_methods.get(media_type, bot.send_photo) dispatch. -/
def kindOf (mt : List Char) : List Char :=
  if knownMediaTypes.contains mt then mt else "photo".toList

structure InputMediaR where
  kind : List Char
  media : List Char
  caption : Option (List Char)
deriving DecidableEq, Repr, Inhabited

/-- get_input_media (publishing.py lines 48-59). -/
def get_input_media (m : DraftMediaR) (caption : Option (List Char)) : InputMediaR :=
  ⟨kindOf m.media_type, m.file_id, caption⟩

/-- One outbound transport call of the publish path. -/
inductive TgCall where
  | sendMessage (chat_id : Int) (text : List Char) (reply_markup : Option Keyboard)
      (disable_web_page_preview : Bool) (disable_notification : Bool)
  | sendSingleMedia (chat_id : Int) (method : List Char) (file_id : List Char)
      (caption : Option (List Char)) (reply_markup : Option Keyboard)
      (disable_notification : Bool)
  | sendMediaGroup (chat_id : Int) (media : List InputMediaR)
      (disable_notification : Bool)
deriving DecidableEq, Repr, Inhabited

/-- The delivery transport as an oracle: single sends yield a message id,
group sends yield the list of sent message ids; either may raise. -/
structure Transport where
  send : TgCall → Except PyExc Int
  sendGroup : TgCall → Except PyExc (List Int)

/-- publish_post (publishing.py lines 62-129), returning the list of
transport calls it makes and the Optional[int] result; any transport
exception is caught and yields None. -/
def publish_post (channel_id : Int) (post : DraftPostR) (tr : Transport) :
    List TgCall × Option Int :=
  let keyboard := build_keyboard post.buttons
  if post.media = [] then
    let c := TgCall.sendMessage channel_id (post.text.getD []) keyboard
      post.disable_link_preview post.disable_notification
    ([c], match tr.send c with
          | .ok mid => some mid
          | .error _ => none)
  else if post.media.length = 1 then
    let m := post.media.headD default
    let c := TgCall.sendSingleMedia channel_id (kindOf m.media_type) m.file_id
      post.text keyboard post.disable_notification
    ([c], match tr.send c with
          | .ok mid => some mid
          | .error _ => none)
  else
    let media_list := post.media.enum.map
      (fun im => get_input_media im.2 (if im.1 = 0 then post.text else none))
    let c := TgCall.sendMediaGroup channel_id media_list post.disable_notification
    ([c], match tr.sendGroup c with
          | .ok ids =>
            match ids with
            | [] => none
            | i :: _ => some i
          | .error _ => none)

/-- publish_scheduled_post (publishing.py lines 132-164): read the current
stored post, guard on existence and scheduled status, publish, then mark
published (truthy message id) or failed.  Returns the updated store and
the transport calls made. -/
def publish_scheduled_post (channel_id : Int) (tr : Transport) (pid : Nat)
    (store : Store) (nowUtc : PyDateTime) : Store × List TgCall :=
  match get_by_id store pid with
  | none => (store, [])
  | some post =>
    if post.status ≠ statusScheduled then (store, [])
    else
      let r := publish_post channel_id post tr
      match r.2 with
      | some mid =>
        if mid ≠ 0 then (mark_published store pid mid nowUtc, r.1)
        else (mark_failed store pid, r.1)
      | none => (mark_failed store pid, r.1)

/-! ## Embedding of src/app/services/scheduler.py -/

/-- One decimal digit as a character. -/
def digitChar (d : Nat) : Char :=
  match d with
  | 0 => '0' | 1 => '1' | 2 => '2' | 3 => '3' | 4 => '4'
  | 5 => '5' | 6 => '6' | 7 => '7' | 8 => '8' | 9 => '9'
  | _ => '*'

/-- Decimal digits of a natural number, least significant first. -/
def natDigitsRev (n : Nat) : List Char :=
  if h : n < 10 then [digitChar n]
  else digitChar (n % 10) :: natDigitsRev (n / 10)
termination_by n
decreasing_by
  exact Nat.div_lt_self (by omega) (by omega)

/-- Decimal rendering of a natural number (Python str(int) for n ≥ 0). -/
def natDigits (n : Nat) : List Char := (natDigitsRev n).reverse

/-- Value of a little-endian digit list; inverse of natDigitsRev. -/
def digitsRevVal : List Char → Nat
  | [] => 0
  | c :: r => (c.toNat - 48) + 10 * digitsRevVal r

/-- The deterministic job id derived from a post id, the f-string
publish_post_{post.id} of scheduler.py. -/
def jobIdOf (pid : Nat) : List Char := "publish_post_".toList ++ natDigits pid

/-- The APScheduler job table: job id to run date.  add_job uses
replace_existing=True, so an existing id is replaced in place. -/
abbrev JobTable := List (List Char × PyDateTime)

def addJob (jt : JobTable) (k : List Char) (v : PyDateTime) : JobTable :=
  match jt with
  | [] => [(k, v)]
  | (k', v') :: rest =>
    if k' = k then (k, v) :: rest else (k', v') :: addJob rest k v

def findJob (jt : JobTable) (k : List Char) : Option PyDateTime :=
  match jt with
  | [] => none
  | (k', v') :: rest => if k' = k then some v' else findJob rest k

/-- cancel_scheduled_post (scheduler.py lines 117-138): remove_job raises
on an unknown id, which is caught and reported as False. -/
def cancel_scheduled_post (jt : JobTable) (jid : List Char) : JobTable × Bool :=
  if jt.any (fun p => p.1 == jid) then
    (jt.filter (fun p => p.1 ≠ jid), true)
  else (jt, false)

/-- restore_scheduled_jobs (scheduler.py lines 49-78): query all scheduled
posts and add one job per post that has a scheduled_at, keyed by the
deterministic job id, at its stored instant.  The scheduler starts with
an empty job table. -/
def restore_scheduled_jobs (store : Store) : JobTable :=
  (get_scheduled store).foldl
    (fun jt p =>
      match p.scheduled_at with
      | some t => addJob jt (jobIdOf p.id) t
      | none => jt) []

/-! ## Embedding of src/app/services/media_group.py -/

structure FileRef where
  file_id : List Char
  file_unique_id : List Char
deriving DecidableEq, Repr, Inhabited

/-- The media payload of an inbound Telegram message; a photo carries its
size list (the code takes the last, highest-resolution entry). -/
inductive MediaPayload where
  | photo (sizes : List FileRef)
  | video (f : FileRef)
  | document (f : FileRef)
  | audio (f : FileRef)
  | animation (f : FileRef)
deriving DecidableEq, Repr, Inhabited

structure TgMsg where
  message_id : Nat
  media_group_id : Option (List Char)
  caption : Option (List Char)
  payload : Option MediaPayload
deriving DecidableEq, Repr, Inhabited

structure MediaItem where
  file_id : List Char
  file_unique_id : List Char
  media_type : List Char
  caption : Option (List Char)
deriving DecidableEq, Repr, Inhabited

/-- The per-message extraction of MediaGroupCollector.get_media_items
(lines 43-78): an empty photo size list is falsy and yields nothing, and
the final truthiness guard drops an empty file_id. -/
def extractGrouped (m : TgMsg) : Option MediaItem :=
  let fromRef : List Char → FileRef → Option MediaItem := fun mt f =>
    if f.file_id ≠ [] then some ⟨f.file_id, f.file_unique_id, mt, m.caption⟩ else none
  match m.payload with
  | some (.photo sizes) =>
    match sizes.getLast? with
    | some f => fromRef "photo".toList f
    | none => none
  | some (.video f) => fromRef "video".toList f
  | some (.document f) => fromRef "document".toList f
  | some (.audio f) => fromRef "audio".toList f
  | some (.animation f) => fromRef "animation".toList f
  | none => none

/-- MediaGroupCollector.get_media_items (lines 39-80): messages sorted by
message_id (Python sorted is stable; so is mergeSort), then extracted. -/
def get_media_items (msgs : List TgMsg) : List MediaItem :=
  (msgs.insertionSort (fun a b => a.message_id ≤ b.message_id)).filterMap
    extractGrouped

/-- MediaGroupManager._extract_single_media (lines 134-173): same
dispatch, without the trailing file_id truthiness guard. -/
def extract_single_media (m : TgMsg) : Option MediaItem :=
  match m.payload with
  | some (.photo sizes) =>
    match sizes.getLast? with
    | some f => some ⟨f.file_id, f.file_unique_id, "photo".toList, m.caption⟩
    | none => none
  | some (.video f) => some ⟨f.file_id, f.file_unique_id, "video".toList, m.caption⟩
  | some (.document f) => some ⟨f.file_id, f.file_unique_id, "document".toList, m.caption⟩
  | some (.audio f) => some ⟨f.file_id, f.file_unique_id, "audio".toList, m.caption⟩
  | some (.animation f) => some ⟨f.file_id, f.file_unique_id, "animation".toList, m.caption⟩
  | none => none

/-- The MediaGroupManager shared state: the _collectors dict (insertion
ordered, values in arrival order) and the key set of the _locks dict. -/
structure MGState where
  collectors : List (List Char × List TgMsg)
  locks : List (List Char)
deriving DecidableEq, Repr, Inhabited

def emptyMG : MGState := ⟨[], []⟩

def collAdd (cs : List (List Char × List TgMsg)) (gid : List Char) (m : TgMsg) :
    List (List Char × List TgMsg) :=
  match cs with
  | [] => [(gid, [m])]
  | (g, ms) :: rest =>
    if g = gid then (g, ms ++ [m]) :: rest else (g, ms) :: collAdd rest gid m

def collFind (cs : List (List Char × List TgMsg)) (gid : List Char) :
    Option (List TgMsg) :=
  match cs with
  | [] => none
  | (g, ms) :: rest => if g = gid then some ms else collFind rest gid

/-- The first atomic segment of MediaGroupManager.process_message for a
grouped message (lines 104-119): ensure a lock and a collector exist for
the group id and append the message.  Under the event loop this entire
segment runs without suspension. -/
def appendPhase (st : MGState) (m : TgMsg) : MGState :=
  match m.media_group_id with
  | none => st
  | some gid =>
    { collectors := collAdd st.collectors gid m,
      locks := if st.locks.contains gid then st.locks else st.locks ++ [gid] }

/-- The second atomic segment of process_message, after the debounce sleep
(lines 125-132).  The call indexes self._locks[group_id] first: when the
finalizing call has already deleted the lock entry, this raises KeyError.
Holding the lock, a missing collector returns the None signal; otherwise
the collector and the lock entry are removed and the sorted items are
returned. -/
def finalizePhase (st : MGState) (gid : List Char) :
    MGState × Except PyExc (Option (List MediaItem)) :=
  if st.locks.contains gid then
    match collFind st.collectors gid with
    | none => (st, .ok none)
    | some msgs =>
      ({ collectors := st.collectors.filter (fun p => p.1 ≠ gid),
         locks := st.locks.filter (fun k => k ≠ gid) },
       .ok (some (get_media_items msgs)))
  else (st, .error .keyError)

/-- The ungrouped fast path of process_message (lines 100-102). -/
def process_message_single (m : TgMsg) : Option (List MediaItem) :=
  match extract_single_media m with
  | some item => some [item]
  | none => none

/-! ## Embedding of src/app/routers/drafts.py (unschedule_post) -/

/-- unschedule_post (drafts.py lines 546-582): guard on existence and
scheduled status, cancel the pending job if a handle is stored, then
update the post to draft with both scheduling fields cleared. -/
def unschedule_post (pid : Nat) (store : Store) (jt : JobTable) : Store × JobTable :=
  match get_by_id store pid with
  | none => (store, jt)
  | some post =>
    if post.status ≠ statusScheduled then (store, jt)
    else
      let jt' :=
        match post.scheduler_job_id with
        | some jid => (cancel_scheduled_post jt jid).1
        | none => jt
      (updatePost store pid (fun p =>
        { p with status := statusDraft, scheduled_at := none,
                 scheduler_job_id := none }), jt')

/-! ## Embedding of src/app/routers/post_wizard.py (Confirmation handlers) -/

/-- The accumulated FSM data of the wizard at the Confirmation state. -/
structure WizardData where
  text : List Char
  text_entities : Option (List PyVal)
  media_file_ids : List (List Char)
  media_type : Option (List Char)
  buttons : List (List Char × List Char)
  scheduled_at : Option PyDateTime
deriving Repr, Inhabited

def wizardPublishNotice : List Char :=
  ("⚠️ <b>Публикация пока не реализована</b>\n\n<i>Эта функция будет добавлена после интеграции с базой данных.</i>").toList

def wizardDraftNotice : List Char :=
  ("⚠️ <b>Сохранение черновика пока не реализовано</b>\n\n<i>Эта функция будет добавлена после интеграции с базой данных.</i>").toList

/-- publish_immediately (post_wizard.py lines 666-675): edits the prompt
message to a not-implemented notice and clears the FSM state; it touches
neither the store nor the channel.  Result: (store, remaining FSM data,
channel transport calls, notice texts shown). -/
def publish_immediately (data : WizardData) (store : Store) :
    Store × Option WizardData × List TgCall × List (List Char) :=
  (store, none, [], [wizardPublishNotice])

/-- save_as_draft (post_wizard.py lines 677-685): same shape, with the
draft-saving notice. -/
def save_as_draft (data : WizardData) (store : Store) :
    Store × Option WizardData × List TgCall × List (List Char) :=
  (store, none, [], [wizardDraftNotice])

/-- The row assignment used when submitted button pairs are persisted:
create_post_with_relations (repo.py lines 303-312) gives each pair its
arrival index as the row and position 0. -/
def buttonsFromPairs (pairs : List (List Char × List Char)) : List DraftButtonR :=
  pairs.enum.map (fun ip => ⟨ip.2.1, ip.2.2, ip.1, 0⟩)

/-! ## General lemmas about the store embedding -/

theorem get_by_id_updatePost (store : Store) (pid : Nat) (f : DraftPostR → DraftPostR)
    (hf : ∀ p, (f p).id = p.id) :
    get_by_id (updatePost store pid f) pid = (get_by_id store pid).map f := by
  induction store with
  | nil => rfl
  | cons p rest ih =>
    by_cases h : p.id = pid
    · simp [get_by_id, updatePost, List.find?_cons, h, hf p]
    · have hb : (p.id == pid) = false := beq_eq_false_iff_ne.mpr h
      simp only [get_by_id, updatePost] at ih ⊢
      simp [List.find?_cons, h, hb, ih]

/-! ## C2: the Confirmation handlers of the wizard -/

/-- C2: the claim that publish-now hands the content to the Publication
Engine and persists the result, and that save-as-draft persists a Post,
fails on the code: both Confirmation handlers are placeholders that show
a not-implemented notice, clear the FSM state, make no transport call,
and leave the store exactly as it was, so no Post record is created. -/
theorem c2_confirmation_handlers_are_placeholders (data : WizardData) (store : Store) :
    publish_immediately data store = (store, none, [], [wizardPublishNotice])
      ∧ save_as_draft data store = (store, none, [], [wizardDraftNotice]) :=
  ⟨rfl, rfl⟩

/-! ## C3: DraftPostRepository.create and the missing text_entities column -/

/-- C3: the claim that every Post record carries text_entities and that
create succeeds for every input fails on the code: the DraftPost model
maps no text_entities attribute, while create always passes the
text_entities keyword to the declarative constructor, so every call
raises TypeError and no Post is returned at all. -/
theorem c3_create_always_raises_type_error (author_id : Int)
    (author_username : Option (List Char)) (text : Option (List Char))
    (text_entities : Option (List PyVal)) (scheduled_at : Option PyDateTime)
    (status : List Char) :
    DraftPostRepository_create author_id author_username text text_entities
      scheduled_at status = .error .typeError := by
  cases text_entities <;> cases scheduled_at <;> rfl

/-! ## C1: album publishing and the button keyboard -/

/-- A post with two photos, a text and one button, as the claim's failing
scenario requires. -/
def c1AlbumPost : DraftPostR :=
  { id := 1, author_id := 10, author_username := none,
    text := some ("hi".toList), scheduled_at := none, status := statusDraft,
    published_message_id := none, published_at := none, scheduler_job_id := none,
    disable_link_preview := true, disable_notification := false,
    media := [⟨"f1".toList, "u1".toList, "photo".toList, none, 0⟩,
              ⟨"f2".toList, "u2".toList, "photo".toList, none, 1⟩],
    buttons := [⟨"Open".toList, "https://example.com".toList, 0, 0⟩] }

/-- A transport whose deliveries all succeed. -/
def c1Transport : Transport :=
  ⟨fun _ => .ok 41, fun _ => .ok [5, 6]⟩

/-- C1: the claim that publishing a multi-media post with a non-empty
button list produces one grouped call plus exactly one trailing
keyboard-only message call fails on the code: on a two-photo post with
one button, publish_post makes exactly one transport call in total — the
grouped delivery, with the text only on the first item's caption — and
never sends the keyboard at all (no trailing message call, and no
entities are attached either). -/
theorem c1_album_publish_drops_keyboard :
    c1AlbumPost.media.length = 2 ∧ c1AlbumPost.buttons ≠ [] ∧
    publish_post 77 c1AlbumPost c1Transport =
      ([TgCall.sendMediaGroup 77
          [⟨"photo".toList, "f1".toList, some ("hi".toList)⟩,
           ⟨"photo".toList, "f2".toList, none⟩] false], some 5) := by
  refine ⟨rfl, by decide, ?_⟩
  rfl

/-! ## C4: scheduler_job_id on unschedule and on publish -/

/-- A scheduled post holding a job handle, with its timer pending. -/
def c4ScheduledPost : DraftPostR :=
  { id := 3, author_id := 10, author_username := none,
    text := some ("t".toList), scheduled_at := some ⟨⟨2026, 10, 20⟩, 12, 0, true⟩,
    status := statusScheduled,
    published_message_id := none, published_at := none,
    scheduler_job_id := some (jobIdOf 3),
    disable_link_preview := true, disable_notification := false,
    media := [], buttons := [] }

/-- C4 counterexample: the claim that scheduler_job_id is present iff
status = scheduled and is cleared on publish is false at this input:
mark_published on the scheduled post flips status to published but keeps
the stored scheduler_job_id handle. -/
theorem c4_mark_published_keeps_job_id :
    (get_by_id (mark_published [c4ScheduledPost] 3 9 ⟨⟨2026, 10, 20⟩, 12, 0, true⟩) 3).map
        (fun p => (p.status, p.scheduler_job_id))
      = some (statusPublished, some (jobIdOf 3)) := by
  rfl

/-- C4 amended: scheduler_job_id is cleared on cancel but not on publish.
Unscheduling a scheduled post leaves status=draft, scheduled_at=null and
scheduler_job_id=null and removes the pending timer entry for the stored
handle; mark_published (the publish path bookkeeping) sets
status=published but leaves scheduler_job_id exactly as it was. -/
theorem c4_unschedule_clears_publish_does_not (store : Store) (jt : JobTable)
    (pid : Nat) (post : DraftPostR) (jid : List Char) (mid : Int) (t : PyDateTime)
    (hfind : get_by_id store pid = some post)
    (hstat : post.status = statusScheduled)
    (hjid : post.scheduler_job_id = some jid) :
    (get_by_id (unschedule_post pid store jt).1 pid =
        some { post with status := statusDraft, scheduled_at := none,
                         scheduler_job_id := none })
      ∧ ((unschedule_post pid store jt).2.all (fun p => p.1 ≠ jid))
      ∧ ((get_by_id (mark_published store pid mid t) pid).map
            (fun p => (p.status, p.scheduler_job_id))
          = some (statusPublished, post.scheduler_job_id)) := by
  have hid : post.id = pid := by
    have := List.find?_some hfind
    simpa using this
  refine ⟨?_, ?_, ?_⟩
  · simp only [unschedule_post, hfind, hstat, mark_published]
    simp only [ne_eq, not_true_eq_false, if_false, hjid]
    rw [get_by_id_updatePost store pid
      (fun p => { p with status := statusDraft, scheduled_at := none,
                         scheduler_job_id := none }) (fun _ => rfl), hfind]
    rfl
  · simp only [unschedule_post, hfind, hstat]
    simp only [ne_eq, not_true_eq_false, if_false, hjid, cancel_scheduled_post]
    by_cases h : jt.any (fun p => p.1 == jid)
    · simp only [h, if_true]
      simp only [List.all_eq_true]
      intro p hmem
      simpa using (List.mem_filter.mp hmem).2
    · simp only [h, if_false, Bool.false_eq_true]
      simp only [List.all_eq_true]
      intro p hmem
      have : ¬ (p.1 == jid) = true := fun hc => h (List.any_eq_true.mpr ⟨p, hmem, hc⟩)
      simpa using this
  · rw [mark_published, get_by_id_updatePost store pid
      (fun p => { p with status := statusPublished, published_message_id := some mid,
                         published_at := some t }) (fun _ => rfl), hfind]
    rfl

/-- Witness for the C4 amended theorem at a concrete scheduled post with
a pending timer entry. -/
theorem c4_witness :
    get_by_id [c4ScheduledPost] 3 = some c4ScheduledPost
      ∧ c4ScheduledPost.status = statusScheduled
      ∧ c4ScheduledPost.scheduler_job_id = some (jobIdOf 3)
      ∧ (get_by_id (unschedule_post 3 [c4ScheduledPost]
            [(jobIdOf 3, ⟨⟨2026, 10, 20⟩, 12, 0, true⟩)]).1 3 =
          some { c4ScheduledPost with status := statusDraft, scheduled_at := none,
                                      scheduler_job_id := none }) := by
  refine ⟨by rfl, by rfl, by rfl, ?_⟩
  exact (c4_unschedule_clears_publish_does_not [c4ScheduledPost]
    [(jobIdOf 3, ⟨⟨2026, 10, 20⟩, 12, 0, true⟩)] 3 c4ScheduledPost (jobIdOf 3) 9
    ⟨⟨2026, 10, 20⟩, 12, 0, true⟩ (by rfl) (by rfl) (by rfl)).1

/-! ## C10: the scheduled-fire handler -/

/-- C10: at fire time, an absent post or a post no longer in scheduled
status produces no transport call and leaves the store unchanged;
otherwise the current stored post is published, and on success (a truthy
message id, which every real transport id is) the post is marked
published with the external message id and publication time recorded,
while a delivery failure marks it failed. -/
theorem c10_scheduled_fire_guards_and_bookkeeping (ch : Int) (tr : Transport)
    (pid : Nat) (store : Store) (nowUtc : PyDateTime) :
    (get_by_id store pid = none →
      publish_scheduled_post ch tr pid store nowUtc = (store, []))
    ∧ (∀ post, get_by_id store pid = some post → post.status ≠ statusScheduled →
      publish_scheduled_post ch tr pid store nowUtc = (store, []))
    ∧ (∀ post, get_by_id store pid = some post → post.status = statusScheduled →
      (publish_scheduled_post ch tr pid store nowUtc).2 = (publish_post ch post tr).1
      ∧ (∀ mid, (publish_post ch post tr).2 = some mid → 0 < mid →
          get_by_id (publish_scheduled_post ch tr pid store nowUtc).1 pid =
            some { post with status := statusPublished,
                             published_message_id := some mid,
                             published_at := some nowUtc })
      ∧ ((publish_post ch post tr).2 = none →
          get_by_id (publish_scheduled_post ch tr pid store nowUtc).1 pid =
            some { post with status := statusFailed })) := by
  refine ⟨?_, ?_, ?_⟩
  · intro h; simp [publish_scheduled_post, h]
  · intro post h hs; simp [publish_scheduled_post, h, hs]
  · intro post h hs
    refine ⟨?_, ?_, ?_⟩
    · simp only [publish_scheduled_post, h, hs, ne_eq, not_true_eq_false, if_false]
      rcases hm : (publish_post ch post tr).2 with _ | mid
      · rfl
      · by_cases h0 : mid ≠ 0 <;> simp [h0]
    · intro mid hm hpos
      have h0 : mid ≠ 0 := by omega
      simp only [publish_scheduled_post, h, hs, ne_eq, not_true_eq_false, if_false, hm,
        h0, not_false_eq_true, if_true, mark_published]
      rw [get_by_id_updatePost store pid
        (fun p => { p with status := statusPublished, published_message_id := some mid,
                           published_at := some nowUtc }) (fun _ => rfl), h]
      rfl
    · intro hm
      simp only [publish_scheduled_post, h, hs, ne_eq, not_true_eq_false, if_false, hm,
        mark_failed]
      rw [get_by_id_updatePost store pid
        (fun p => { p with status := statusFailed }) (fun _ => rfl), h]
      rfl

/-- Witness for C10 at a concrete scheduled post, an always-succeeding
transport and a concrete absent id. -/
theorem c10_witness :
    (get_by_id [c4ScheduledPost] 8 = none ∧
      publish_scheduled_post 77 c1Transport 8 [c4ScheduledPost]
        ⟨⟨2026, 10, 20⟩, 12, 5, true⟩ = ([c4ScheduledPost], []))
    ∧ (get_by_id [c4ScheduledPost] 3 = some c4ScheduledPost
        ∧ c4ScheduledPost.status = statusScheduled
        ∧ (publish_post 77 c4ScheduledPost c1Transport).2 = some 41
        ∧ get_by_id (publish_scheduled_post 77 c1Transport 3 [c4ScheduledPost]
              ⟨⟨2026, 10, 20⟩, 12, 5, true⟩).1 3 =
            some { c4ScheduledPost with status := statusPublished,
                                        published_message_id := some 41,
                                        published_at := some ⟨⟨2026, 10, 20⟩, 12, 5, true⟩ }) := by
  refine ⟨⟨by rfl, ?_⟩, by rfl, by rfl, by rfl, ?_⟩
  · exact (c10_scheduled_fire_guards_and_bookkeeping 77 c1Transport 8 [c4ScheduledPost]
      ⟨⟨2026, 10, 20⟩, 12, 5, true⟩).1 (by rfl)
  · exact ((c10_scheduled_fire_guards_and_bookkeeping 77 c1Transport 3 [c4ScheduledPost]
      ⟨⟨2026, 10, 20⟩, 12, 5, true⟩).2.2 c4ScheduledPost (by rfl) (by rfl)).2.1 41 (by rfl)
      (by omega)

/-! ## C7: restart recovery of the scheduler -/

theorem digitChar_toNat (d : Nat) (h : d < 10) : (digitChar d).toNat = 48 + d := by
  interval_cases d <;> rfl

theorem digitsRevVal_natDigitsRev (n : Nat) : digitsRevVal (natDigitsRev n) = n := by
  induction n using Nat.strong_induction_on with
  | _ n ih =>
    rw [natDigitsRev]
    split
    · rename_i h
      simp [digitsRevVal, digitChar_toNat n h]
    · rename_i h
      have hd : n / 10 < n := Nat.div_lt_self (by omega) (by omega)
      have hm : n % 10 < 10 := Nat.mod_lt _ (by omega)
      simp [digitsRevVal, digitChar_toNat (n % 10) hm, ih (n / 10) hd]
      omega

theorem natDigits_injective : Function.Injective natDigits := by
  intro a b h
  have h2 : natDigitsRev a = natDigitsRev b := by
    have := congrArg List.reverse h
    simpa [natDigits] using this
  have := congrArg digitsRevVal h2
  rwa [digitsRevVal_natDigitsRev, digitsRevVal_natDigitsRev] at this

theorem jobIdOf_injective : Function.Injective jobIdOf := by
  intro a b h
  exact natDigits_injective (List.append_cancel_left h)

theorem addJob_eq_append (jt : JobTable) (k : List Char) (v : PyDateTime)
    (h : ∀ p ∈ jt, p.1 ≠ k) : addJob jt k v = jt ++ [(k, v)] := by
  induction jt with
  | nil => rfl
  | cons q rest ih =>
    have hq : q.1 ≠ k := h q (List.mem_cons_self _ _)
    simp only [addJob, hq, if_false]
    rw [ih (fun p hp => h p (List.mem_cons_of_mem _ hp))]
    rfl

theorem foldl_addJob_eq (pairs : JobTable) :
    ∀ acc : JobTable, (pairs.map Prod.fst).Nodup →
    (∀ p ∈ acc, ∀ q ∈ pairs, p.1 ≠ q.1) →
    pairs.foldl (fun jt q => addJob jt q.1 q.2) acc = acc ++ pairs := by
  induction pairs with
  | nil => intro acc _ _; simp
  | cons q rest ih =>
    intro acc hnd hacc
    have h1 : addJob acc q.1 q.2 = acc ++ [q] := by
      rw [addJob_eq_append acc q.1 q.2
        (fun p hp => hacc p hp q (List.mem_cons_self _ _))]
    have hnd' : (rest.map Prod.fst).Nodup := (List.nodup_cons.mp hnd).2
    have hq : q.1 ∉ rest.map Prod.fst := (List.nodup_cons.mp hnd).1
    simp only [List.foldl_cons, h1]
    rw [ih (acc ++ [q]) hnd' ?_]
    · simp
    · intro p hp r hr
      rcases List.mem_append.mp hp with hp' | hp'
      · exact hacc p hp' r (List.mem_cons_of_mem _ hr)
      · have : p = q := by simpa using hp'
        subst this
        intro hcon
        exact hq (hcon ▸ List.mem_map_of_mem Prod.fst hr)

theorem findJob_of_mem (jt : JobTable) (k : List Char) (v : PyDateTime)
    (hmem : (k, v) ∈ jt) (hnd : (jt.map Prod.fst).Nodup) : findJob jt k = some v := by
  induction jt with
  | nil => cases hmem
  | cons q rest ih =>
    rcases List.mem_cons.mp hmem with h | h
    · simp [findJob, ← h]
    · have hq : q.1 ≠ k := by
        intro hc
        have hk : k ∈ rest.map Prod.fst := List.mem_map_of_mem Prod.fst h
        exact (List.nodup_cons.mp hnd).1 (hc ▸ hk)
      simp only [findJob, hq, if_false]
      exact ih h (List.nodup_cons.mp hnd).2

theorem restore_fold_eq_map (l : List DraftPostR) :
    ∀ acc : JobTable, (∀ p ∈ l, p.scheduled_at.isSome) →
    l.foldl (fun jt p =>
        match p.scheduled_at with
        | some t => addJob jt (jobIdOf p.id) t
        | none => jt) acc
      = (l.map (fun p => (jobIdOf p.id, p.scheduled_at.getD default))).foldl
          (fun jt q => addJob jt q.1 q.2) acc := by
  induction l with
  | nil => intro acc _; rfl
  | cons p rest ih =>
    intro acc hall
    obtain ⟨t, ht⟩ := Option.isSome_iff_exists.mp (hall p (List.mem_cons_self _ _))
    simp only [List.foldl_cons, List.map_cons, ht, Option.getD_some]
    exact ih _ (fun q hq => hall q (List.mem_cons_of_mem _ hq))

/-- C7: starting from an empty job table, restore registers exactly one
pending job per post in scheduled status — N scheduled posts give N
jobs, each keyed by the post's deterministic job id at its stored
scheduled_at, with no duplicate keys and nothing else in the table. -/
theorem c7_restore_registers_exactly_scheduled (store : Store)
    (hids : (store.map (fun p => p.id)).Nodup)
    (hsome : ∀ p ∈ store, p.status = statusScheduled → p.scheduled_at.isSome) :
    (restore_scheduled_jobs store).length
        = (store.filter (fun p => p.status == statusScheduled)).length
    ∧ (∀ p ∈ store, p.status = statusScheduled → ∀ t, p.scheduled_at = some t →
        findJob (restore_scheduled_jobs store) (jobIdOf p.id) = some t)
    ∧ (∀ k v, (k, v) ∈ restore_scheduled_jobs store →
        ∃ p ∈ store, p.status = statusScheduled ∧ k = jobIdOf p.id
          ∧ p.scheduled_at = some v)
    ∧ ((restore_scheduled_jobs store).map Prod.fst).Nodup := by
  classical
  set f := store.filter (fun p => p.status == statusScheduled) with hf
  set s := f.insertionSort (fun a b => schedAscLe a b = true) with hsdef
  have hperm : s.Perm f := List.perm_insertionSort _ f
  have hmemf : ∀ p, p ∈ f ↔ p ∈ store ∧ p.status = statusScheduled := by
    intro p
    rw [hf, List.mem_filter]
    constructor
    · rintro ⟨h1, h2⟩; exact ⟨h1, by simpa using h2⟩
    · rintro ⟨h1, h2⟩; exact ⟨h1, by simpa using h2⟩
  have hmems : ∀ p, p ∈ s ↔ p ∈ store ∧ p.status = statusScheduled := by
    intro p; rw [hperm.mem_iff]; exact hmemf p
  have hsomes : ∀ p ∈ s, p.scheduled_at.isSome := by
    intro p hp
    obtain ⟨h1, h2⟩ := (hmems p).mp hp
    exact hsome p h1 h2
  have hidnodup : (s.map (fun p => p.id)).Nodup := by
    have h1 : (f.map (fun p => p.id)).Nodup :=
      ((List.filter_sublist store).map (fun p => p.id)).nodup hids
    exact ((hperm.map (fun p => p.id)).nodup_iff).mpr h1
  have hkeys : (s.map (fun p => (jobIdOf p.id, p.scheduled_at.getD default))).map Prod.fst
      = s.map (fun p => jobIdOf p.id) := by
    rw [List.map_map]; rfl
  have hkeynodup :
      ((s.map (fun p => (jobIdOf p.id, p.scheduled_at.getD default))).map Prod.fst).Nodup := by
    rw [hkeys]
    have : s.map (fun p => jobIdOf p.id) = (s.map (fun p => p.id)).map jobIdOf := by
      rw [List.map_map]; rfl
    rw [this]
    exact hidnodup.map jobIdOf_injective
  have hrw : restore_scheduled_jobs store
      = s.map (fun p => (jobIdOf p.id, p.scheduled_at.getD default)) := by
    unfold restore_scheduled_jobs get_scheduled
    rw [← hf, ← hsdef]
    rw [restore_fold_eq_map s [] hsomes]
    rw [foldl_addJob_eq _ [] hkeynodup (by intro p hp; cases hp)]
    simp
  refine ⟨?_, ?_, ?_, ?_⟩
  · rw [hrw, List.length_map]
    exact hperm.length_eq
  · intro p hp hstat t ht
    have hps : p ∈ s := (hmems p).mpr ⟨hp, hstat⟩
    have hmem : (jobIdOf p.id, t) ∈ s.map (fun p => (jobIdOf p.id, p.scheduled_at.getD default)) :=
      List.mem_map.mpr ⟨p, hps, by rw [ht]; rfl⟩
    rw [hrw]
    exact findJob_of_mem _ _ _ hmem hkeynodup
  · intro k v hkv
    rw [hrw] at hkv
    obtain ⟨p, hps, hpair⟩ := List.mem_map.mp hkv
    obtain ⟨h1, h2⟩ := (hmems p).mp hps
    obtain ⟨t, ht⟩ := Option.isSome_iff_exists.mp (hsomes p hps)
    refine ⟨p, h1, h2, ?_, ?_⟩
    · have := congrArg Prod.fst hpair
      simpa using this.symm
    · have := congrArg Prod.snd hpair
      simp only [ht, Option.getD_some] at this
      rw [ht, this]
  · rw [hrw]
    exact hkeynodup

/-- A second scheduled post and a draft post for the C7 witness store. -/
def c7OtherScheduledPost : DraftPostR :=
  { c4ScheduledPost with id := 4, scheduled_at := some ⟨⟨2026, 11, 2⟩, 9, 30, true⟩,
                         scheduler_job_id := some (jobIdOf 4) }

def c7DraftPost : DraftPostR :=
  { c4ScheduledPost with id := 5, status := statusDraft, scheduled_at := none,
                         scheduler_job_id := none }

/-- Witness for C7 on a store with two scheduled posts and one draft:
restore yields exactly two jobs, at the two stored instants. -/
theorem c7_witness :
    (restore_scheduled_jobs [c4ScheduledPost, c7OtherScheduledPost, c7DraftPost]).length = 2
    ∧ findJob (restore_scheduled_jobs [c4ScheduledPost, c7OtherScheduledPost, c7DraftPost])
        (jobIdOf 3) = some ⟨⟨2026, 10, 20⟩, 12, 0, true⟩
    ∧ findJob (restore_scheduled_jobs [c4ScheduledPost, c7OtherScheduledPost, c7DraftPost])
        (jobIdOf 4) = some ⟨⟨2026, 11, 2⟩, 9, 30, true⟩ := by
  have h := c7_restore_registers_exactly_scheduled
    [c4ScheduledPost, c7OtherScheduledPost, c7DraftPost]
    (by decide) (by decide)
  refine ⟨?_, ?_, ?_⟩
  · rw [h.1]; rfl
  · exact h.2.1 c4ScheduledPost (by simp) (by rfl) _ (by rfl)
  · exact h.2.1 c7OtherScheduledPost (by simp) (by rfl) _ (by rfl)

/-! ## C9: parse_datetime never raises past its boundary -/

theorem except_bind_ok {α β : Type} {e : Except PyExc α} {f : α → Except PyExc β} {r : β}
    (h : e.bind f = .ok r) : ∃ a, e = .ok a ∧ f a = .ok r := by
  cases e <;> simp_all [Except.bind]

/-- Every answer the HH:MM branch returns successfully is an aware
datetime with no error component. -/
theorem branchTime_ok (td : PyDate) (tp : List Char) (now : PyDateTime) (r : DtParseAns)
    (h : branchTime td tp now = some (.ok r)) :
    ∃ dt, r = (some dt, none) ∧ dt.aware = true := by
  unfold branchTime at h
  repeat' split at h
  all_goals try exact Option.noConfusion h
  all_goals injection h with h1
  all_goals try exact Except.noConfusion h1
  all_goals injection h1 with h2
  all_goals exact ⟨_, h2.symm, rfl⟩

/-- Every answer the DATE TIME branch returns successfully is an aware
datetime with no error component. -/
theorem branchDate_ok (dp : List (List Char)) (ts : List Char) (now : PyDateTime)
    (r : DtParseAns) (h : branchDate dp ts now = .ok r) :
    ∃ dt, r = (some dt, none) ∧ dt.aware = true := by
  unfold branchDate at h
  obtain ⟨d, hd, h⟩ := except_bind_ok h
  obtain ⟨mo, hmo, h⟩ := except_bind_ok h
  obtain ⟨y, hy, h⟩ := except_bind_ok h
  split at h
  · obtain ⟨hh, hhh, h⟩ := except_bind_ok h
    obtain ⟨mi, hmi, h⟩ := except_bind_ok h
    obtain ⟨dt, hdt, h⟩ := except_bind_ok h
    injection h with h1
    exact ⟨localize dt, h1.symm, rfl⟩
  · cases h

theorem fallbackAns_ok (t : List Char) (fb : List Char → Except PyExc PyDateTime)
    (r : DtParseAns) (h : fallbackAns t fb = .ok r) :
    ∃ dt, r = (some dt, none) ∧ dt.aware = true := by
  unfold fallbackAns at h
  cases hfb : fb t with
  | ok dt =>
    rw [hfb] at h
    injection h with h1
    by_cases ha : dt.aware
    · exact ⟨dt, by simp [← h1, ha], ha⟩
    · exact ⟨localize dt, by simp [← h1, ha], rfl⟩
  | error e => rw [hfb] at h; cases h

theorem dateOrFallback_ok (dp : List (List Char)) (ts t : List Char) (now : PyDateTime)
    (fb : List Char → Except PyExc PyDateTime) (r : DtParseAns)
    (h : dateOrFallback dp ts t now fb = .ok r) :
    ∃ dt, r = (some dt, none) ∧ dt.aware = true := by
  unfold dateOrFallback at h
  split at h
  · exact branchDate_ok _ _ _ _ h
  · exact fallbackAns_ok _ _ _ h

theorem restAns_ok (tp t : List Char) (now : PyDateTime)
    (fb : List Char → Except PyExc PyDateTime) (r : DtParseAns)
    (h : restAns tp t now fb = .ok r) :
    ∃ dt, r = (some dt, none) ∧ dt.aware = true := by
  unfold restAns at h
  split at h
  · exact dateOrFallback_ok _ _ _ _ _ _ h
  · exact fallbackAns_ok _ _ _ h

/-- Every answer the branch cascade returns successfully is an aware
datetime with no error component, for every fallback oracle. -/
theorem afterDayScan_ok (td : PyDate) (tp t : List Char) (now : PyDateTime)
    (fb : List Char → Except PyExc PyDateTime) (r : DtParseAns)
    (h : afterDayScan td tp t now fb = .ok r) :
    ∃ dt, r = (some dt, none) ∧ dt.aware = true := by
  unfold afterDayScan at h
  split at h
  · split at h
    · rename_i r' heq
      rw [h] at heq
      exact branchTime_ok _ _ _ _ heq
    · exact restAns_ok _ _ _ _ _ h
  · exact restAns_ok _ _ _ _ _ h

/-- Every successful parseBody answer is an aware datetime with no error
component. -/
theorem parseBody_ok (t : List Char) (now : PyDateTime)
    (fb : List Char → Except PyExc PyDateTime) (r : DtParseAns)
    (h : parseBody t now fb = .ok r) :
    ∃ dt, r = (some dt, none) ∧ dt.aware = true := by
  unfold parseBody at h
  split at h
  · split at h
    · exact afterDayScan_ok _ _ _ _ _ _ h
    · cases h
  · exact afterDayScan_ok _ _ _ _ _ _ h

/-- C9: for every input text and every behaviour of the external fallback
parser, parse_datetime returns a value rather than raising: either a
timezone-aware instant with no error, or no instant together with the
fixed example-based hint. -/
theorem c9_parse_datetime_total_and_structured (text : List Char) (now : PyDateTime)
    (fb : List Char → Except PyExc PyDateTime) :
    (∃ dt, parse_datetime text now fb = (some dt, none) ∧ dt.aware = true)
      ∨ parse_datetime text now fb = (none, some dtErrorHint) := by
  unfold parse_datetime parse_datetime_lowered
  split
  · exact Or.inl ⟨_, rfl, rfl⟩
  · rcases hb : parseBody (pyLower (pyStrip text)) { now with aware := true } fb with e | r
    · right; simp [hb]
    · obtain ⟨dt, hdt, ha⟩ := parseBody_ok _ _ _ _ hb
      refine Or.inl ⟨dt, ?_, ha⟩
      simp [hb, hdt]

/-! ## C8: the media group aggregator under concurrent processing -/

theorem collAdd_find_same (cs : List (List Char × List TgMsg)) (gid : List Char)
    (m : TgMsg) :
    collFind (collAdd cs gid m) gid = some ((collFind cs gid).getD [] ++ [m]) := by
  induction cs with
  | nil => simp [collAdd, collFind]
  | cons q rest ih =>
    by_cases h : q.1 = gid
    · simp [collAdd, collFind, h]
    · simp [collAdd, collFind, h, ih]

theorem appendPhase_locks_mono (st : MGState) (m : TgMsg) (gid : List Char)
    (h : st.locks.contains gid = true) :
    (appendPhase st m).locks.contains gid = true := by
  unfold appendPhase
  split
  · exact h
  · split
    · exact h
    · simpa using Or.inl (by simpa using h)

theorem foldl_appendPhase_locks_mono (msgs : List TgMsg) :
    ∀ st : MGState, st.locks.contains gid = true →
    (msgs.foldl appendPhase st).locks.contains gid = true := by
  induction msgs with
  | nil => intro st h; exact h
  | cons m rest ih =>
    intro st h
    exact ih _ (appendPhase_locks_mono st m gid h)

theorem foldl_appendPhase_collects (msgs : List TgMsg) (gid : List Char) :
    ∀ st : MGState, (∀ m ∈ msgs, m.media_group_id = some gid) →
    collFind (msgs.foldl appendPhase st).collectors gid
      = if msgs = [] then collFind st.collectors gid
        else some ((collFind st.collectors gid).getD [] ++ msgs) := by
  induction msgs with
  | nil => intro st _; simp
  | cons m rest ih =>
    intro st hall
    have hm : m.media_group_id = some gid := hall m (List.mem_cons_self _ _)
    have hst : collFind (appendPhase st m).collectors gid
        = some ((collFind st.collectors gid).getD [] ++ [m]) := by
      unfold appendPhase
      rw [hm]
      exact collAdd_find_same _ _ _
    rw [List.foldl_cons, ih _ (fun q hq => hall q (List.mem_cons_of_mem _ hq))]
    by_cases hrest : rest = []
    · simp [hrest, hst]
    · simp [hrest, hst]

theorem appendPhase_locks_after (st : MGState) (m : TgMsg) (gid : List Char)
    (hm : m.media_group_id = some gid) :
    (appendPhase st m).locks.contains gid = true := by
  have he : appendPhase st m
      = ⟨collAdd st.collectors gid m,
         if st.locks.contains gid then st.locks else st.locks ++ [gid]⟩ := by
    unfold appendPhase; rw [hm]
  rw [he]
  by_cases h : st.locks.contains gid = true
  · show (if st.locks.contains gid = true then st.locks else st.locks ++ [gid]).contains gid = true
    rw [if_pos h]; exact h
  · show (if st.locks.contains gid = true then st.locks else st.locks ++ [gid]).contains gid = true
    rw [if_neg h]
    exact List.elem_iff.mpr (List.mem_append.mpr (Or.inr (List.mem_singleton.mpr rfl)))

theorem filter_ne_contains_false (l : List (List Char)) (gid : List Char) :
    (l.filter (fun k => k ≠ gid)).contains gid = false := by
  rw [Bool.eq_false_iff]
  intro hc
  have hm : gid ∈ l.filter (fun k => k ≠ gid) := List.elem_iff.mp hc
  have := List.mem_filter.mp hm
  simp at this

theorem length_filterMap_of_isSome {α β : Type} (f : α → Option β) (l : List α)
    (h : ∀ x ∈ l, (f x).isSome) : (l.filterMap f).length = l.length := by
  induction l with
  | nil => rfl
  | cons x rest ih =>
    obtain ⟨b, hb⟩ := Option.isSome_iff_exists.mp (h x (List.mem_cons_self _ _))
    rw [List.filterMap_cons, hb]
    simp only [List.length_cons]
    rw [ih (fun y hy => h y (List.mem_cons_of_mem _ hy))]

/-- C8: after all grouped events of one album have been appended within
the debounce window, the first caller to run the post-sleep segment is
the single finalizer: it alone receives the media list, which contains
every appended event's item ordered by arrival sequence number
(message_id), not receipt order.  Every later caller, instead of
receiving the documented already-handled None signal, hits the deleted
lock entry and raises KeyError. -/
theorem c8_single_finalizer_others_keyerror (msgs : List TgMsg) (gid : List Char)
    (hne : msgs ≠ []) (hg : ∀ m ∈ msgs, m.media_group_id = some gid)
    (hex : ∀ m ∈ msgs, (extractGrouped m).isSome) :
    (finalizePhase (msgs.foldl appendPhase emptyMG) gid).2
        = .ok (some (get_media_items msgs))
    ∧ (get_media_items msgs).length = msgs.length
    ∧ (msgs.insertionSort (fun a b => a.message_id ≤ b.message_id)).Pairwise
        (fun a b => a.message_id ≤ b.message_id)
    ∧ (finalizePhase (finalizePhase (msgs.foldl appendPhase emptyMG) gid).1 gid).2
        = .error .keyError := by
  have hcoll : collFind (msgs.foldl appendPhase emptyMG).collectors gid = some msgs := by
    rw [foldl_appendPhase_collects msgs gid emptyMG hg]
    simp [hne, emptyMG, collFind]
  have hlock : (msgs.foldl appendPhase emptyMG).locks.contains gid = true := by
    rcases msgs with _ | ⟨m, rest⟩
    · exact absurd rfl hne
    · rw [List.foldl_cons]
      exact foldl_appendPhase_locks_mono rest _
        (appendPhase_locks_after emptyMG m gid (hg m (List.mem_cons_self _ _)))
  have hfin : finalizePhase (msgs.foldl appendPhase emptyMG) gid
      = (⟨(msgs.foldl appendPhase emptyMG).collectors.filter (fun p => p.1 ≠ gid),
          (msgs.foldl appendPhase emptyMG).locks.filter (fun k => k ≠ gid)⟩,
         .ok (some (get_media_items msgs))) := by
    unfold finalizePhase
    rw [hlock, hcoll]
    simp
  refine ⟨by rw [hfin], ?_, ?_, ?_⟩
  · unfold get_media_items
    have hperm := List.perm_insertionSort
      (fun a b : TgMsg => a.message_id ≤ b.message_id) msgs
    rw [length_filterMap_of_isSome _ _
      (fun m hm => hex m (hperm.mem_iff.mp hm))]
    exact hperm.length_eq
  · haveI : IsTotal TgMsg (fun a b => a.message_id ≤ b.message_id) :=
      ⟨fun a b => Nat.le_total _ _⟩
    haveI : IsTrans TgMsg (fun a b => a.message_id ≤ b.message_id) :=
      ⟨fun _ _ _ hab hbc => Nat.le_trans hab hbc⟩
    exact List.sorted_insertionSort _ msgs
  · rw [hfin]
    unfold finalizePhase
    rw [filter_ne_contains_false]
    simp

/-- Two grouped photo and video events sharing one group id, received out
of arrival order (message_id 2 first). -/
def c8Gid : List Char := "g1".toList

def c8MsgA : TgMsg :=
  ⟨2, some c8Gid, some ("cap".toList),
   some (.photo [⟨"pa".toList, "ua".toList⟩, ⟨"pb".toList, "ub".toList⟩])⟩

def c8MsgB : TgMsg :=
  ⟨1, some c8Gid, none, some (.video ⟨"v1".toList, "uv".toList⟩)⟩

/-- Witness for C8 at the concrete two-event album: the single finalizer
receives both items ordered by message_id (the later-received id 1 video
first), and the other caller raises KeyError. -/
theorem c8_witness :
    (finalizePhase ([c8MsgA, c8MsgB].foldl appendPhase emptyMG) c8Gid).2
        = .ok (some [⟨"v1".toList, "uv".toList, "video".toList, none⟩,
                     ⟨"pb".toList, "ub".toList, "photo".toList, some ("cap".toList)⟩])
    ∧ (get_media_items [c8MsgA, c8MsgB]).length = 2
    ∧ (finalizePhase
        (finalizePhase ([c8MsgA, c8MsgB].foldl appendPhase emptyMG) c8Gid).1 c8Gid).2
        = .error .keyError := by
  have h := c8_single_finalizer_others_keyerror [c8MsgA, c8MsgB] c8Gid
    (by decide) (by decide) (by decide)
  refine ⟨?_, ?_, h.2.2.2⟩
  · rw [h.1]
    rfl
  · rw [h.2.1]
    rfl

/-! ## C6: button line parsing and keyboard rendering -/

theorem dropWhile_eq_self_of_head (l : List Char)
    (h : ∀ x, l.head? = some x → isPyWS x = false) : l.dropWhile isPyWS = l := by
  cases l with
  | nil => rfl
  | cons a as =>
    rw [List.dropWhile_cons, if_neg]
    rw [h a rfl]
    exact Bool.false_ne_true

theorem pyStrip_eq_self (l : List Char)
    (h1 : ∀ x, l.head? = some x → isPyWS x = false)
    (h2 : ∀ x, l.getLast? = some x → isPyWS x = false) : pyStrip l = l := by
  have hdw : l.dropWhile isPyWS = l := dropWhile_eq_self_of_head l h1
  have hrw : l.reverse.dropWhile isPyWS = l.reverse := by
    apply dropWhile_eq_self_of_head
    intro x hx
    rw [List.head?_reverse] at hx
    exact h2 x hx
  unfold pyStrip
  rw [hdw, hrw, List.reverse_reverse]

theorem pyStrip_length_le (l : List Char) :
    (pyStrip l).length ≤ (l.dropWhile isPyWS).length := by
  unfold pyStrip
  rw [List.length_reverse]
  calc ((l.dropWhile isPyWS).reverse.dropWhile isPyWS).length
      ≤ (l.dropWhile isPyWS).reverse.length := (List.dropWhile_sublist _).length_le
    _ = (l.dropWhile isPyWS).length := List.length_reverse _

theorem head_not_ws_of_strip_eq (l : List Char) (h : pyStrip l = l) :
    ∀ x, l.head? = some x → isPyWS x = false := by
  intro x hx
  by_contra hws
  have hws' : isPyWS x = true := by simpa using hws
  cases l with
  | nil => cases hx
  | cons a as =>
    have hax : a = x := by simpa using hx
    subst hax
    have hdw : (a :: as).dropWhile isPyWS = as.dropWhile isPyWS := by
      rw [List.dropWhile_cons, if_pos hws']
    have hlen : (pyStrip (a :: as)).length ≤ as.length := by
      calc (pyStrip (a :: as)).length
          ≤ ((a :: as).dropWhile isPyWS).length := pyStrip_length_le _
        _ = (as.dropWhile isPyWS).length := by rw [hdw]
        _ ≤ as.length := (List.dropWhile_sublist _).length_le
    rw [h] at hlen
    simp only [List.length_cons] at hlen
    omega

theorem last_not_ws_of_strip_eq (l : List Char) (h : pyStrip l = l) :
    ∀ x, l.getLast? = some x → isPyWS x = false := by
  intro x hx
  by_contra hws
  have hws' : isPyWS x = true := by simpa using hws
  have hlen1 : ((l.dropWhile isPyWS)).length = l.length := by
    have h1 : (pyStrip l).length = l.length := by rw [h]
    have h2 := pyStrip_length_le l
    have h3 := (List.dropWhile_sublist (l := l) isPyWS).length_le
    omega
  have hdw : l.dropWhile isPyWS = l :=
    (List.dropWhile_sublist _).eq_of_length hlen1
  have hrs : (l.reverse.dropWhile isPyWS).reverse = l := by
    have hexp : pyStrip l = (l.reverse.dropWhile isPyWS).reverse := by
      unfold pyStrip; rw [hdw]
    rw [← hexp, h]
  have hrev : l.reverse.dropWhile isPyWS = l.reverse := by
    have := congrArg List.reverse hrs
    simpa using this
  cases hr : l.reverse with
  | nil =>
    have : l = [] := by simpa using congrArg List.reverse hr
    subst this; cases hx
  | cons b bs =>
    have hbx : b = x := by
      have hhb : l.reverse.head? = some b := by rw [hr]; rfl
      rw [List.head?_reverse, hx] at hhb
      simpa using hhb.symm
    subst hbx
    rw [hr, List.dropWhile_cons, if_pos hws'] at hrev
    have hlen2 := congrArg List.length hrev
    have hle := (List.dropWhile_sublist (l := bs) isPyWS).length_le
    simp only [List.length_cons] at hlen2
    omega

/-- The first occurrence of the space-dash-space separator in
label ++ sep ++ url is the inserted one, provided the label contains no
dash. -/
theorem splitOnceSub_dash_boundary (label url : List Char) (hnd : '-' ∉ label) :
    splitOnceSub [' ', '-', ' '] (label ++ [' ', '-', ' '] ++ url)
      = some (label, url) := by
  induction label with
  | nil =>
    show splitOnceSub [' ', '-', ' '] (' ' :: '-' :: ' ' :: url) = some ([], url)
    unfold splitOnceSub
    rw [if_pos (by simp [List.isPrefixOf])]
    rfl
  | cons x xs ih =>
    have hx : '-' ∉ xs := fun hc => hnd (List.mem_cons_of_mem _ hc)
    have hnp : ([' ', '-', ' '] : List Char).isPrefixOf
        (x :: (xs ++ [' ', '-', ' '] ++ url)) = false := by
      cases xs with
      | nil => simp [List.isPrefixOf]
      | cons y ys =>
        have hy : ¬ ('-' = y) := by
          intro hc
          exact hnd (hc ▸ List.mem_cons_of_mem _ (List.mem_cons_self _ _))
        simp [List.isPrefixOf, beq_eq_false_iff_ne.mpr hy]
    show splitOnceSub [' ', '-', ' '] (x :: (xs ++ [' ', '-', ' '] ++ url))
      = some (x :: xs, url)
    unfold splitOnceSub
    rw [if_neg (by rw [hnp]; exact Bool.false_ne_true)]
    rw [show xs ++ [' ', '-', ' '] ++ url
        = xs ++ ([' ', '-', ' '] ++ url) from by simp] at ih ⊢
    rw [ih hx]
    rfl

/-- The per-line parse of a well-shaped label - url line. -/
theorem lineButton_roundtrip (label url : List Char) (hl : label ≠ []) (hu : url ≠ [])
    (hsl : pyStrip label = label) (hsu : pyStrip url = url)
    (hnd : '-' ∉ label) (hvalid : is_valid_url url = true) :
    lineButton (label ++ [' ', '-', ' '] ++ url) = some (label, url) := by
  have hstrip : pyStrip (label ++ [' ', '-', ' '] ++ url)
      = label ++ [' ', '-', ' '] ++ url := by
    apply pyStrip_eq_self
    · intro x hx
      rw [List.append_assoc, List.head?_append] at hx
      cases hlab : label.head? with
      | none => exact absurd (List.head?_eq_none_iff.mp hlab) hl
      | some a =>
        rw [hlab] at hx
        have hax : a = x := by simpa using hx
        exact hax ▸ head_not_ws_of_strip_eq label hsl a hlab
    · intro x hx
      rw [List.getLast?_append] at hx
      cases hurl : url.getLast? with
      | none => exact absurd (List.getLast?_eq_none_iff.mp hurl) hu
      | some a =>
        rw [hurl] at hx
        have hax : a = x := by simpa using hx
        exact hax ▸ last_not_ws_of_strip_eq url hsu a hurl
  have hsplit := splitOnceSub_dash_boundary label url hnd
  have hcont : containsSub (label ++ [' ', '-', ' '] ++ url) [' ', '-', ' '] = true := by
    unfold containsSub
    rw [hsplit]
    rfl
  have hne : label ++ [' ', '-', ' '] ++ url ≠ [] := by simp
  unfold lineButton
  rw [hstrip]
  simp only [hne, if_false, buttonSeparators, List.find?_cons, hcont, hsplit, hsl, hsu,
    hvalid, if_true]

theorem foldl_lineButton_eq_filterMap (lines : List (List Char)) :
    ∀ acc : List (List Char × List Char),
    lines.foldl
      (fun acc line =>
        match lineButton line with
        | some p => acc ++ [p]
        | none => acc) acc
      = acc ++ lines.filterMap lineButton := by
  induction lines with
  | nil => intro acc; simp
  | cons l rest ih =>
    intro acc
    rw [List.foldl_cons, List.filterMap_cons]
    cases hl : lineButton l with
    | none => rw [ih]
    | some p => rw [ih]; simp

theorem dictAddBtn_eq_append (d : List (Nat × List InlineKeyboardButtonR)) (k : Nat)
    (b : InlineKeyboardButtonR) (h : ∀ q ∈ d, q.1 ≠ k) :
    dictAddBtn d k b = d ++ [(k, [b])] := by
  induction d with
  | nil => rfl
  | cons q rest ih =>
    have hq : q.1 ≠ k := h q (List.mem_cons_self _ _)
    simp only [dictAddBtn, hq, if_false]
    rw [ih (fun p hp => h p (List.mem_cons_of_mem _ hp))]
    rfl

theorem foldl_dictAddBtn_eq (buttons : List DraftButtonR) :
    ∀ acc : List (Nat × List InlineKeyboardButtonR),
    (buttons.map (fun b => b.row)).Nodup →
    (∀ q ∈ acc, ∀ b ∈ buttons, q.1 ≠ b.row) →
    buttons.foldl (fun d btn => dictAddBtn d btn.row ⟨btn.text, btn.url⟩) acc
      = acc ++ buttons.map (fun b => (b.row, [⟨b.text, b.url⟩])) := by
  induction buttons with
  | nil => intro acc _ _; simp
  | cons b rest ih =>
    intro acc hnd hacc
    have h1 : dictAddBtn acc b.row ⟨b.text, b.url⟩ = acc ++ [(b.row, [⟨b.text, b.url⟩])] :=
      dictAddBtn_eq_append acc b.row _ (fun q hq => hacc q hq b (List.mem_cons_self _ _))
    have hnd' : (rest.map (fun b => b.row)).Nodup := (List.nodup_cons.mp hnd).2
    have hb : b.row ∉ rest.map (fun b => b.row) := (List.nodup_cons.mp hnd).1
    have hacc' : ∀ q ∈ acc ++ [(b.row, [(⟨b.text, b.url⟩ : InlineKeyboardButtonR)])],
        ∀ r ∈ rest, q.1 ≠ r.row := by
      intro q hq r hr
      rcases List.mem_append.mp hq with hq' | hq'
      · exact hacc q hq' r (List.mem_cons_of_mem _ hr)
      · have hqb : q = (b.row, [(⟨b.text, b.url⟩ : InlineKeyboardButtonR)]) := by
          simpa using hq'
        subst hqb
        intro hcon
        have hcon' : b.row = r.row := hcon
        exact hb (by rw [hcon']; exact List.mem_map_of_mem (fun b => b.row) hr)
    rw [List.foldl_cons, h1,
      ih (acc ++ [(b.row, [(⟨b.text, b.url⟩ : InlineKeyboardButtonR)])]) hnd' hacc']
    simp

theorem dictFindBtn_of_mem (d : List (Nat × List InlineKeyboardButtonR)) (k : Nat)
    (v : List InlineKeyboardButtonR) (hmem : (k, v) ∈ d)
    (hnd : (d.map Prod.fst).Nodup) : dictFindBtn d k = v := by
  induction d with
  | nil => cases hmem
  | cons q rest ih =>
    rcases List.mem_cons.mp hmem with h | h
    · simp [dictFindBtn, ← h]
    · have hq : q.1 ≠ k := by
        intro hc
        have hk : k ∈ rest.map Prod.fst := List.mem_map_of_mem Prod.fst h
        exact (List.nodup_cons.mp hnd).1 (hc ▸ hk)
      simp only [dictFindBtn, hq, if_false]
      exact ih h (List.nodup_cons.mp hnd).2

theorem map_dictFindBtn_keys (d : List (Nat × List InlineKeyboardButtonR))
    (hnd : (d.map Prod.fst).Nodup) :
    (d.map Prod.fst).map (fun k => dictFindBtn d k) = d.map Prod.snd := by
  induction d with
  | nil => rfl
  | cons q rest ih =>
    have hq : q.1 ∉ rest.map Prod.fst := (List.nodup_cons.mp hnd).1
    simp only [List.map_cons]
    congr 1
    · simp [dictFindBtn]
    · have hcongr : (rest.map Prod.fst).map (fun k => dictFindBtn (q :: rest) k)
          = (rest.map Prod.fst).map (fun k => dictFindBtn rest k) := by
        apply List.map_congr_left
        intro k hk
        have hne : q.1 ≠ k := fun hc => hq (hc ▸ hk)
        simp [dictFindBtn, hne]
      rw [hcongr, ih (List.nodup_cons.mp hnd).2]

theorem keyboardRows_eq_values (d : List (Nat × List InlineKeyboardButtonR))
    (hsorted : List.Sorted (fun a b => a ≤ b) (d.map Prod.fst))
    (hnd : (d.map Prod.fst).Nodup) : keyboardRows d = d.map Prod.snd := by
  unfold keyboardRows
  have hfst : d.map (fun p => p.1) = d.map Prod.fst := rfl
  rw [hfst, List.Sorted.insertionSort_eq hsorted, map_dictFindBtn_keys d hnd]

theorem build_keyboard_buttonsFromPairs (pairs : List (List Char × List Char)) :
    build_keyboard (buttonsFromPairs pairs)
      = if pairs = [] then none
        else some (pairs.map (fun p => [⟨p.1, p.2⟩])) := by
  by_cases hp : pairs = []
  · subst hp; rfl
  · rw [if_neg hp]
    have hbne : buttonsFromPairs pairs ≠ [] := by
      unfold buttonsFromPairs
      simp [hp]
    have hrowmap : (buttonsFromPairs pairs).map (fun b => b.row)
        = List.range pairs.length := by
      unfold buttonsFromPairs
      rw [List.map_map]
      have hc : ((fun (b : DraftButtonR) => b.row) ∘
          (fun ip : Nat × (List Char × List Char) =>
            (⟨ip.2.1, ip.2.2, ip.1, 0⟩ : DraftButtonR)))
          = Prod.fst := rfl
      rw [hc, List.enum_map_fst]
    have hrownd : ((buttonsFromPairs pairs).map (fun b => b.row)).Nodup := by
      rw [hrowmap]; exact List.nodup_range _
    have hrows : (buttonsFromPairs pairs).foldl
        (fun d btn => dictAddBtn d btn.row ⟨btn.text, btn.url⟩) []
        = (buttonsFromPairs pairs).map (fun b => (b.row, [⟨b.text, b.url⟩])) := by
      rw [foldl_dictAddBtn_eq (buttonsFromPairs pairs) [] hrownd (by intro q hq; cases hq)]
      rfl
    have hkeys : ((buttonsFromPairs pairs).map
          (fun b => (b.row, [(⟨b.text, b.url⟩ : InlineKeyboardButtonR)]))).map Prod.fst
        = List.range pairs.length := by
      rw [List.map_map]
      exact hrowmap
    unfold build_keyboard
    rw [if_neg hbne, hrows]
    rw [keyboardRows_eq_values _ (by rw [hkeys]; exact List.pairwise_le_range _)
      (by rw [hkeys]; exact List.nodup_range _)]
    unfold buttonsFromPairs
    rw [List.map_map, List.map_map]
    have hcomp : ((Prod.snd ∘
        (fun b : DraftButtonR => (b.row, [(⟨b.text, b.url⟩ : InlineKeyboardButtonR)]))) ∘
         (fun ip : Nat × (List Char × List Char) =>
           (⟨ip.2.1, ip.2.2, ip.1, 0⟩ : DraftButtonR)))
        = (fun p : List Char × List Char =>
            [(⟨p.1, p.2⟩ : InlineKeyboardButtonR)]) ∘ Prod.snd := rfl
    rw [hcomp, ← List.map_map, List.enum_map_snd]

/-- C6: the batch is processed line by line (parse_button_text equals the
independent per-line results, so one bad line cannot affect another, and
blank lines are skipped); a line with no recognized separator yields
nothing, as does a line whose URL candidate fails is_valid_url; a
well-shaped label - url line parses to exactly its label and url; and
rendering parsed pairs into a keyboard (one row per pair, as the persist
path assigns rows) reproduces every label and url unchanged, in order. -/
theorem c6_button_lines_parse_and_render :
    (∀ text : List Char,
      parse_button_text text = (splitOnC '\n' (pyStrip text)).filterMap lineButton)
    ∧ (∀ line : List Char, pyStrip line = [] → lineButton line = none)
    ∧ (∀ line : List Char,
        (∀ sep ∈ buttonSeparators, containsSub (pyStrip line) sep = false) →
        lineButton line = none)
    ∧ (∀ line sep : List Char,
        buttonSeparators.find? (fun sp => containsSub (pyStrip line) sp) = some sep →
        ∀ a b : List Char, splitOnceSub sep (pyStrip line) = some (a, b) →
        is_valid_url (pyStrip b) = false → lineButton line = none)
    ∧ (∀ label url : List Char, label ≠ [] → url ≠ [] →
        pyStrip label = label → pyStrip url = url → '-' ∉ label →
        is_valid_url url = true →
        lineButton (label ++ [' ', '-', ' '] ++ url) = some (label, url))
    ∧ (∀ pairs : List (List Char × List Char),
        build_keyboard (buttonsFromPairs pairs)
          = if pairs = [] then none
            else some (pairs.map (fun p => [⟨p.1, p.2⟩]))) := by
  refine ⟨?_, ?_, ?_, ?_, lineButton_roundtrip, build_keyboard_buttonsFromPairs⟩
  · intro text
    unfold parse_button_text
    rw [foldl_lineButton_eq_filterMap]
    rfl
  · intro line h
    unfold lineButton
    rw [h]
    rfl
  · intro line h
    unfold lineButton
    split
    · rfl
    · rw [List.find?_eq_none.mpr
        (fun sep hmem => by rw [h sep hmem]; exact Bool.false_ne_true)]
  · intro line sep hfind a b hsplit hbad
    unfold lineButton
    split
    · rfl
    · simp only [hfind, hsplit, hbad, Bool.false_eq_true, if_false]

/-- Witness for C6 at a concrete batch: a valid line, a blank line and a
separator-free line parse independently; the valid line round-trips; the
rendered keyboard reproduces the pair. -/
theorem c6_witness :
    parse_button_text ("Open - https://example.com\n\nnosep".toList)
        = (splitOnC '\n' (pyStrip ("Open - https://example.com\n\nnosep".toList))).filterMap
            lineButton
    ∧ lineButton ("Open".toList ++ [' ', '-', ' '] ++ "https://example.com".toList)
        = some ("Open".toList, "https://example.com".toList)
    ∧ build_keyboard (buttonsFromPairs [("Open".toList, "https://example.com".toList)])
        = some [[⟨"Open".toList, "https://example.com".toList⟩]] := by
  refine ⟨c6_button_lines_parse_and_render.1 _, ?_, ?_⟩
  · exact c6_button_lines_parse_and_render.2.2.2.2.1 ("Open".toList)
      ("https://example.com".toList) (by decide) (by decide) (by decide) (by decide)
      (by decide) (by decide)
  · rw [c6_button_lines_parse_and_render.2.2.2.2.2
      [("Open".toList, "https://example.com".toList)]]
    rfl

/-! ## C5: the bare HH:MM and DATE TIME behaviours of parse_datetime -/

theorem isDigitC_toNat (c : Char) (h : isDigitC c = true) :
    48 ≤ c.toNat ∧ c.toNat ≤ 57 := by
  unfold isDigitC at h
  simp only [Bool.and_eq_true, decide_eq_true_eq] at h
  exact h

theorem isDigitC_ne (c d : Char) (h : isDigitC c = true) (hd : d.toNat < 48 ∨ 57 < d.toNat) :
    c ≠ d := by
  intro hc
  obtain ⟨h1, h2⟩ := isDigitC_toNat c h
  subst hc
  omega

theorem isDigitC_not_ws (c : Char) (h : isDigitC c = true) : isPyWS c = false := by
  unfold isPyWS
  simp only [Bool.or_eq_false_iff, decide_eq_false_iff_not]
  refine ⟨⟨⟨⟨⟨?_, ?_⟩, ?_⟩, ?_⟩, ?_⟩, ?_⟩ <;>
    exact isDigitC_ne c _ h (by decide)

theorem pyLowerChar_eq_self (c : Char) (h : c.toNat ≤ 64) : pyLowerChar c = c := by
  unfold pyLowerChar
  rw [if_neg (by omega), if_neg (by omega), if_neg (by omega)]

theorem pyLower_eq_self (l : List Char) (h : ∀ c ∈ l, c.toNat ≤ 64) :
    pyLower l = l := by
  unfold pyLower
  rw [List.map_congr_left (fun c hc => pyLowerChar_eq_self c (h c hc))]
  exact List.map_id _

theorem splitOnC_not_mem (c : Char) (l : List Char) (h : c ∉ l) :
    splitOnC c l = [l] := by
  induction l with
  | nil => rfl
  | cons x xs ih =>
    have hx : x ≠ c := fun hc => h (hc ▸ List.mem_cons_self _ _)
    have hxs : c ∉ xs := fun hc => h (List.mem_cons_of_mem _ hc)
    unfold splitOnC
    rw [if_neg hx, ih hxs]

theorem splitOnC_append (c : Char) (a b : List Char) (h : c ∉ a) :
    splitOnC c (a ++ c :: b) = a :: splitOnC c b := by
  induction a with
  | nil =>
    show splitOnC c (c :: b) = [] :: splitOnC c b
    conv_lhs => rw [splitOnC]
    rw [if_pos rfl]
  | cons x xs ih =>
    have hx : x ≠ c := fun hc => h (hc ▸ List.mem_cons_self _ _)
    have hxs : c ∉ xs := fun hc => h (List.mem_cons_of_mem _ hc)
    show splitOnC c (x :: (xs ++ c :: b)) = (x :: xs) :: splitOnC c b
    conv_lhs => rw [splitOnC]
    rw [if_neg hx, ih hxs]

theorem takeWhile_append_stop (p : Char → Bool) (a : List Char) (s : Char)
    (b : List Char) (ha : ∀ x ∈ a, p x = true) (hs : p s = false) :
    (a ++ s :: b).takeWhile p = a := by
  induction a with
  | nil => simp [List.takeWhile_cons, hs]
  | cons x xs ih =>
    rw [List.cons_append, List.takeWhile_cons, ha x (List.mem_cons_self _ _)]
    simp only [if_true]
    rw [ih (fun y hy => ha y (List.mem_cons_of_mem _ hy))]

theorem dropWhile_append_stop (p : Char → Bool) (a : List Char) (s : Char)
    (b : List Char) (ha : ∀ x ∈ a, p x = true) (hs : p s = false) :
    (a ++ s :: b).dropWhile p = s :: b := by
  induction a with
  | nil => simp [List.dropWhile_cons, hs]
  | cons x xs ih =>
    rw [List.cons_append, List.dropWhile_cons, ha x (List.mem_cons_self _ _)]
    simp only [if_true]
    exact ih (fun y hy => ha y (List.mem_cons_of_mem _ hy))

theorem pySplitWS_nil : pySplitWS [] = [] := by
  rw [pySplitWS]

theorem pySplitWS_single (l : List Char) (hne : l ≠ [])
    (h : ∀ c ∈ l, isPyWS c = false) : pySplitWS l = [l] := by
  cases l with
  | nil => exact absurd rfl hne
  | cons x xs =>
    have hx : isPyWS x = false := h x (List.mem_cons_self _ _)
    conv_lhs => rw [pySplitWS]
    rw [if_neg (by rw [hx]; exact Bool.false_ne_true)]
    have ht : xs.takeWhile (fun c => !isPyWS c) = xs :=
      List.takeWhile_eq_self_iff.mpr
        (fun y hy => by rw [h y (List.mem_cons_of_mem _ hy)]; rfl)
    have hd : xs.dropWhile (fun c => !isPyWS c) = [] :=
      List.dropWhile_eq_nil_iff.mpr
        (fun y hy => by rw [h y (List.mem_cons_of_mem _ hy)]; rfl)
    rw [ht, hd, pySplitWS_nil]

theorem pySplitWS_pair (a b : List Char) (hna : a ≠ []) (hnb : b ≠ [])
    (ha : ∀ c ∈ a, isPyWS c = false) (hb : ∀ c ∈ b, isPyWS c = false) :
    pySplitWS (a ++ ' ' :: b) = [a, b] := by
  cases a with
  | nil => exact absurd rfl hna
  | cons x xs =>
    have hx : isPyWS x = false := ha x (List.mem_cons_self _ _)
    have hxs : ∀ c ∈ xs, isPyWS c = false :=
      fun y hy => ha y (List.mem_cons_of_mem _ hy)
    rw [List.cons_append]
    conv_lhs => rw [pySplitWS]
    rw [if_neg (by rw [hx]; exact Bool.false_ne_true)]
    rw [takeWhile_append_stop _ xs ' ' b
      (fun y hy => by rw [hxs y hy]; rfl) (by rfl)]
    rw [dropWhile_append_stop _ xs ' ' b
      (fun y hy => by rw [hxs y hy]; rfl) (by rfl)]
    have hsp : pySplitWS (' ' :: b) = pySplitWS b := by
      conv_lhs => rw [pySplitWS]
      rw [if_pos (by decide)]
    rw [hsp, pySplitWS_single b hnb hb]

theorem pyStrip_digits (l : List Char) (h : ∀ c ∈ l, isDigitC c = true) :
    pyStrip l = l := by
  apply pyStrip_eq_self
  · intro x hx
    exact isDigitC_not_ws x (h x (List.mem_of_mem_head? hx))
  · intro x hx
    exact isDigitC_not_ws x (h x (List.mem_of_mem_getLast? hx))

theorem pyInt_digits (ds : List Char) (hne : ds ≠ [])
    (h : ∀ c ∈ ds, isDigitC c = true) :
    pyInt ds = .ok ((digitsVal ds : Nat) : Int) := by
  cases ds with
  | nil => exact absurd rfl hne
  | cons c rest =>
    have hc : isDigitC c = true := h c (List.mem_cons_self _ _)
    have hs : pyStrip (c :: rest) = c :: rest := pyStrip_digits _ h
    show pyInt (c :: rest) = .ok ((digitsVal (c :: rest) : Nat) : Int)
    unfold pyInt
    rw [hs]
    show (if c = '+' then (pyIntCore rest).map (fun (n : Nat) => (n : Int))
      else if c = '-' then (pyIntCore rest).map (fun (n : Nat) => -(n : Int))
      else (pyIntCore (c :: rest)).map (fun (n : Nat) => (n : Int)))
      = .ok ((digitsVal (c :: rest) : Nat) : Int)
    rw [if_neg (isDigitC_ne c '+' hc (by decide)),
        if_neg (isDigitC_ne c '-' hc (by decide))]
    unfold pyIntCore
    rw [if_pos ⟨List.cons_ne_nil _ _, List.all_eq_true.mpr (fun x hx => h x hx)⟩]
    rfl

theorem containsSub_of_mem (c : Char) (l : List Char) (h : c ∈ l) :
    containsSub l [c] = true := by
  unfold containsSub
  induction l with
  | nil => cases h
  | cons x xs ih =>
    by_cases hx : x = c
    · subst hx
      unfold splitOnceSub
      rw [if_pos (by simp [List.isPrefixOf])]
      rfl
    · have hxs : c ∈ xs := by
        rcases List.mem_cons.mp h with h' | h'
        · exact absurd h'.symm hx
        · exact h'
      unfold splitOnceSub
      split
      · rfl
      · obtain ⟨p, hp⟩ := Option.isSome_iff_exists.mp (ih hxs)
        rw [hp]
        rfl

theorem not_immediate_keyword (c : Char) (rest : List Char) (hd : isDigitC c = true) :
    ¬(c :: rest = "now".toList ∨ c :: rest = "сейчас".toList
      ∨ c :: rest = "немедленно".toList) := by
  rintro (h | h | h) <;>
  · injection h with h1 _
    exact isDigitC_ne c _ hd (by decide) h1

theorem russianDays_find_none (c : Char) (rest : List Char) (hd : isDigitC c = true) :
    russianDays.find? (fun p => p.1.isPrefixOf (c :: rest)) = none := by
  apply List.find?_eq_none.mpr
  intro p hp
  simp only [russianDays, List.mem_cons, List.not_mem_nil, or_false] at hp
  rcases hp with hp | hp | hp <;>
  · subst hp
    simp only [List.isPrefixOf]
    simp
    intro hc
    exact absurd hc.symm (isDigitC_ne c _ hd (by decide))

theorem nextDayE_isOk (d : PyDate) (h : d.year ≤ 9998) :
    ∃ d2, nextDayE d = .ok d2 := by
  unfold nextDayE
  split
  · exact ⟨_, rfl⟩
  split
  · exact ⟨_, rfl⟩
  split
  · exact ⟨_, rfl⟩
  · omega

theorem getLast?_concat_right (a b : List Char) (hb : b ≠ []) :
    (a ++ b).getLast? = b.getLast? := by
  rw [List.getLast?_append]
  cases hlb : b.getLast? with
  | none => exact absurd (List.getLast?_eq_none_iff.mp hlb) hb
  | some x => rfl

theorem c5A_bare_time (now : PyDateTime) (fb : List Char → Except PyExc PyDateTime)
    (hs ms : List Char) (hhne : hs ≠ []) (hmne : ms ≠ [])
    (hhd : ∀ c ∈ hs, isDigitC c = true) (hmd : ∀ c ∈ ms, isDigitC c = true)
    (hh23 : digitsVal hs ≤ 23) (hm59 : digitsVal ms ≤ 59)
    (hy : now.date.year ≤ 9998) :
    (toMin ⟨now.date, (digitsVal hs : Int), (digitsVal ms : Int), true⟩ ≤ toMin now →
      ∃ d2, nextDayE now.date = .ok d2 ∧
        parse_datetime (hs ++ ':' :: ms) now fb
          = (some ⟨d2, (digitsVal hs : Int), (digitsVal ms : Int), true⟩, none))
    ∧ (¬ toMin ⟨now.date, (digitsVal hs : Int), (digitsVal ms : Int), true⟩ ≤ toMin now →
        parse_datetime (hs ++ ':' :: ms) now fb
          = (some ⟨now.date, (digitsVal hs : Int), (digitsVal ms : Int), true⟩, none)) := by
  cases hs with
  | nil => exact absurd rfl hhne
  | cons c hs' =>
  have hc : isDigitC c = true := hhd c (List.mem_cons_self _ _)
  have hd_t : ∀ x ∈ (c :: hs') ++ ':' :: ms, isDigitC x = true ∨ x = ':' := by
    intro x hx
    rcases List.mem_append.mp hx with h | h
    · exact Or.inl (hhd x h)
    · rcases List.mem_cons.mp h with h | h
      · exact Or.inr h
      · exact Or.inl (hmd x h)
  have hnws : ∀ x ∈ (c :: hs') ++ ':' :: ms, isPyWS x = false := by
    intro x hx
    rcases hd_t x hx with h | h
    · exact isDigitC_not_ws x h
    · subst h; rfl
  have hstrip : pyStrip ((c :: hs') ++ ':' :: ms) = (c :: hs') ++ ':' :: ms := by
    apply pyStrip_eq_self
    · intro x hx
      exact hnws x (List.mem_of_mem_head? hx)
    · intro x hx
      exact hnws x (List.mem_of_mem_getLast? hx)
  have hlow : pyLower ((c :: hs') ++ ':' :: ms) = (c :: hs') ++ ':' :: ms := by
    apply pyLower_eq_self
    intro x hx
    rcases hd_t x hx with h | h
    · exact le_trans (isDigitC_toNat x h).2 (by omega)
    · subst h; decide
  have hsplitc : splitOnC ':' ((c :: hs') ++ ':' :: ms) = [c :: hs', ms] := by
    rw [splitOnC_append ':' (c :: hs') ms
      (fun hmem => by
        have := hhd ':' hmem
        exact absurd this (by decide))]
    rw [splitOnC_not_mem ':' ms
      (fun hmem => by
        have := hmd ':' hmem
        exact absurd this (by decide))]
  have hws1 : pySplitWS ((c :: hs') ++ ':' :: ms) = [(c :: hs') ++ ':' :: ms] :=
    pySplitWS_single _ (by simp) hnws
  have hcont : containsSub ((c :: hs') ++ ':' :: ms) [':'] = true :=
    containsSub_of_mem ':' _ (List.mem_append.mpr (Or.inr (List.mem_cons_self _ _)))
  have hrange : (0 : Int) ≤ ((digitsVal (c :: hs') : Nat) : Int)
      ∧ ((digitsVal (c :: hs') : Nat) : Int) ≤ 23
      ∧ (0 : Int) ≤ ((digitsVal ms : Nat) : Int)
      ∧ ((digitsVal ms : Nat) : Int) ≤ 59 :=
    ⟨by positivity, by exact_mod_cast hh23, by positivity, by exact_mod_cast hm59⟩
  simp only [List.cons_append] at hstrip hlow hsplitc hws1 hcont ⊢
  constructor
  · intro hpass
    obtain ⟨d2, hd2⟩ := nextDayE_isOk now.date hy
    refine ⟨d2, hd2, ?_⟩
    unfold parse_datetime
    rw [hstrip, hlow]
    unfold parse_datetime_lowered
    rw [if_neg (not_immediate_keyword c (hs' ++ ':' :: ms) hc)]
    unfold parseBody
    rw [russianDays_find_none c (hs' ++ ':' :: ms) hc]
    unfold afterDayScan
    rw [if_pos ⟨hcont, by rw [hws1]; rfl⟩]
    unfold branchTime
    simp only [hsplitc, pyInt_digits (c :: hs') (by simp) hhd, pyInt_digits ms hmne hmd,
      localize, hd2, eq_self_iff_true, and_true]
    rw [if_pos hrange]
    rw [if_pos (show toMin ⟨now.date, ((digitsVal (c :: hs') : Nat) : Int),
        ((digitsVal ms : Nat) : Int), true⟩
        ≤ toMin ⟨now.date, now.hour, now.minute, true⟩ from hpass)]
  · intro hpass
    unfold parse_datetime
    rw [hstrip, hlow]
    unfold parse_datetime_lowered
    rw [if_neg (not_immediate_keyword c (hs' ++ ':' :: ms) hc)]
    unfold parseBody
    rw [russianDays_find_none c (hs' ++ ':' :: ms) hc]
    unfold afterDayScan
    rw [if_pos ⟨hcont, by rw [hws1]; rfl⟩]
    unfold branchTime
    simp only [hsplitc, pyInt_digits (c :: hs') (by simp) hhd, pyInt_digits ms hmne hmd,
      localize, eq_self_iff_true, and_true]
    rw [if_pos hrange]
    rw [if_neg (show ¬ toMin ⟨now.date, ((digitsVal (c :: hs') : Nat) : Int),
        ((digitsVal ms : Nat) : Int), true⟩
        ≤ toMin ⟨now.date, now.hour, now.minute, true⟩ from hpass)]


theorem afterDayScan_pair (td : PyDate) (dpart tpart t : List Char)
    (now' : PyDateTime) (fb : List Char → Except PyExc PyDateTime)
    (hws : pySplitWS (dpart ++ ' ' :: tpart) = [dpart, tpart]) :
    afterDayScan td (dpart ++ ' ' :: tpart) t now' fb
      = dateOrFallback (splitOnC '.' (dpart.map (fun c => if c = '/' then '.' else c)))
          tpart t now' fb := by
  unfold afterDayScan
  rw [if_neg (fun hcon => by rw [hws] at hcon; exact absurd hcon.2 (by simp))]
  unfold restAns
  rw [hws]

theorem head_of_isPrefixOf (a : Char) (as t : List Char)
    (h : (a :: as).isPrefixOf t = true) : t.head? = some a := by
  obtain ⟨rest, hrest⟩ := List.isPrefixOf_iff_prefix.mp h
  rw [← hrest]
  rfl

theorem not_immediate_keyword_head (t : List Char) (c : Char)
    (hh : t.head? = some c) (hd : isDigitC c = true) :
    ¬(t = "now".toList ∨ t = "сейчас".toList ∨ t = "немедленно".toList) := by
  rintro (h | h | h) <;>
  · subst h
    simp only [List.head?] at hh
    have := Option.some.inj hh
    exact isDigitC_ne c _ hd (by decide) this.symm

theorem russianDays_find_none_head (t : List Char) (c : Char)
    (hh : t.head? = some c) (hd : isDigitC c = true) :
    russianDays.find? (fun p => p.1.isPrefixOf t) = none := by
  apply List.find?_eq_none.mpr
  intro p hp
  simp only [russianDays, List.mem_cons, List.not_mem_nil, or_false] at hp
  rcases hp with hp | hp | hp <;>
  · subst hp
    intro hcon
    have hhead := head_of_isPrefixOf _ _ _ hcon
    rw [hh] at hhead
    have := Option.some.inj hhead
    exact isDigitC_ne c _ hd (by decide) this

theorem c5B_date_time (now : PyDateTime) (fb : List Char → Except PyExc PyDateTime)
    (d1 d2 hs ms : List Char)
    (h1ne : d1 ≠ []) (h2ne : d2 ≠ []) (hhne : hs ≠ []) (hmne : ms ≠ [])
    (h1d : ∀ c ∈ d1, isDigitC c = true) (h2d : ∀ c ∈ d2, isDigitC c = true)
    (hhd : ∀ c ∈ hs, isDigitC c = true) (hmd : ∀ c ∈ ms, isDigitC c = true)
    (hnv : now.Valid)
    (hmo1 : 1 ≤ digitsVal d2) (hmo12 : digitsVal d2 ≤ 12)
    (hdl : 1 ≤ digitsVal d1)
    (hdim : ((digitsVal d1 : Nat) : Int) ≤ daysInMonth now.date.year (digitsVal d2))
    (hh23 : digitsVal hs ≤ 23) (hm59 : digitsVal ms ≤ 59) :
    parse_datetime ((d1 ++ '.' :: d2) ++ ' ' :: (hs ++ ':' :: ms)) now fb
      = (some ⟨⟨now.date.year, (digitsVal d2 : Int), (digitsVal d1 : Int)⟩,
          (digitsVal hs : Int), (digitsVal ms : Int), true⟩, none) := by
  cases d1 with
  | nil => exact absurd rfl h1ne
  | cons e d1' =>
  have he : isDigitC e = true := h1d e (List.mem_cons_self _ _)
  have hdp : ∀ x ∈ (e :: d1') ++ '.' :: d2, isDigitC x = true ∨ x = '.' := by
    intro x hx
    rcases List.mem_append.mp hx with h | h
    · exact Or.inl (h1d x h)
    · rcases List.mem_cons.mp h with h | h
      · exact Or.inr h
      · exact Or.inl (h2d x h)
  have htp : ∀ x ∈ hs ++ ':' :: ms, isDigitC x = true ∨ x = ':' := by
    intro x hx
    rcases List.mem_append.mp hx with h | h
    · exact Or.inl (hhd x h)
    · rcases List.mem_cons.mp h with h | h
      · exact Or.inr h
      · exact Or.inl (hmd x h)
  have hdpws : ∀ x ∈ (e :: d1') ++ '.' :: d2, isPyWS x = false := by
    intro x hx
    rcases hdp x hx with h | h
    · exact isDigitC_not_ws x h
    · subst h; rfl
  have htpws : ∀ x ∈ hs ++ ':' :: ms, isPyWS x = false := by
    intro x hx
    rcases htp x hx with h | h
    · exact isDigitC_not_ws x h
    · subst h; rfl
  have hws2 : pySplitWS (((e :: d1') ++ '.' :: d2) ++ ' ' :: (hs ++ ':' :: ms))
      = [(e :: d1') ++ '.' :: d2, hs ++ ':' :: ms] :=
    pySplitWS_pair _ _ (by simp) (by simp [hhne]) hdpws htpws
  have hhead : (((e :: d1') ++ '.' :: d2) ++ ' ' :: (hs ++ ':' :: ms)).head? = some e := by
    simp
  have hlast : (((e :: d1') ++ '.' :: d2) ++ ' ' :: (hs ++ ':' :: ms)).getLast?
      = ms.getLast? := by
    rw [getLast?_concat_right ((e :: d1') ++ '.' :: d2) (' ' :: (hs ++ ':' :: ms))
      (by simp)]
    rw [← List.singleton_append, getLast?_concat_right [' '] (hs ++ ':' :: ms)
      (by simp [hhne])]
    rw [show (':' :: ms : List Char) = [':'] ++ ms from rfl]
    rw [getLast?_concat_right hs ([':'] ++ ms) (by simp)]
    rw [getLast?_concat_right [':'] ms hmne]
  have hstrip : pyStrip (((e :: d1') ++ '.' :: d2) ++ ' ' :: (hs ++ ':' :: ms))
      = ((e :: d1') ++ '.' :: d2) ++ ' ' :: (hs ++ ':' :: ms) := by
    apply pyStrip_eq_self
    · intro x hx
      rw [hhead] at hx
      have hex : e = x := by simpa using hx
      exact hex ▸ isDigitC_not_ws e he
    · intro x hx
      rw [hlast] at hx
      exact isDigitC_not_ws x (hmd x (List.mem_of_mem_getLast? hx))
  have hlow : pyLower (((e :: d1') ++ '.' :: d2) ++ ' ' :: (hs ++ ':' :: ms))
      = ((e :: d1') ++ '.' :: d2) ++ ' ' :: (hs ++ ':' :: ms) := by
    apply pyLower_eq_self
    intro x hx
    rcases List.mem_append.mp hx with h | h
    · rcases hdp x h with h' | h'
      · exact le_trans (isDigitC_toNat x h').2 (by omega)
      · subst h'; decide
    · rcases List.mem_cons.mp h with h' | h'
      · subst h'; decide
      · rcases htp x h' with h'' | h''
        · exact le_trans (isDigitC_toNat x h'').2 (by omega)
        · subst h''; decide
  have hmap : ((e :: d1') ++ '.' :: d2).map (fun c => if c = '/' then '.' else c)
      = (e :: d1') ++ '.' :: d2 := by
    rw [List.map_congr_left, List.map_id]
    intro x hx
    rcases hdp x hx with h | h
    · exact if_neg (isDigitC_ne x '/' h (by decide))
    · subst h; rfl
  have hsplitdot : splitOnC '.' ((e :: d1') ++ '.' :: d2) = [e :: d1', d2] := by
    rw [splitOnC_append '.' (e :: d1') d2
      (fun hmem => absurd (h1d '.' hmem) (by decide))]
    rw [splitOnC_not_mem '.' d2
      (fun hmem => absurd (h2d '.' hmem) (by decide))]
  have hsplitcol : splitOnC ':' (hs ++ ':' :: ms) = [hs, ms] := by
    rw [splitOnC_append ':' hs ms
      (fun hmem => absurd (hhd ':' hmem) (by decide))]
    rw [splitOnC_not_mem ':' ms
      (fun hmem => absurd (hmd ':' hmem) (by decide))]
  have hcond : (1 : Int) ≤ now.date.year ∧ now.date.year ≤ 9999
      ∧ (1 : Int) ≤ ((digitsVal d2 : Nat) : Int) ∧ ((digitsVal d2 : Nat) : Int) ≤ 12
      ∧ (1 : Int) ≤ ((digitsVal (e :: d1') : Nat) : Int)
      ∧ ((digitsVal (e :: d1') : Nat) : Int)
          ≤ daysInMonth now.date.year ((digitsVal d2 : Nat) : Int)
      ∧ (0 : Int) ≤ ((digitsVal hs : Nat) : Int) ∧ ((digitsVal hs : Nat) : Int) ≤ 23
      ∧ (0 : Int) ≤ ((digitsVal ms : Nat) : Int) ∧ ((digitsVal ms : Nat) : Int) ≤ 59 :=
    ⟨hnv.1, hnv.2.1, by exact_mod_cast hmo1, by exact_mod_cast hmo12,
      by exact_mod_cast hdl, hdim, by positivity, by exact_mod_cast hh23,
      by positivity, by exact_mod_cast hm59⟩
  unfold parse_datetime
  rw [hstrip, hlow]
  unfold parse_datetime_lowered
  rw [if_neg (not_immediate_keyword_head _ e hhead he)]
  unfold parseBody
  rw [russianDays_find_none_head _ e hhead he]
  rw [afterDayScan_pair _ ((e :: d1') ++ '.' :: d2) (hs ++ ':' :: ms) _ _ fb hws2]
  rw [hmap, hsplitdot]
  unfold dateOrFallback
  rw [if_pos (by simp)]
  unfold branchDate
  simp only [List.getD_cons_zero, List.getD_cons_succ, List.length_cons, List.length_nil,
    pyInt_digits (e :: d1') (by simp) h1d, pyInt_digits d2 h2ne h2d,
    pyInt_digits hs hhne hhd, pyInt_digits ms hmne hmd,
    Except.bind, hsplitcol]
  rw [if_neg (by omega)]
  unfold mkDateTimeE
  simp only []
  rw [if_pos hcond]
  rfl

theorem c5B2_date_time_year (now : PyDateTime) (fb : List Char → Except PyExc PyDateTime)
    (d1 d2 ys hs ms : List Char)
    (h1ne : d1 ≠ []) (h2ne : d2 ≠ []) (hyne : ys ≠ []) (hhne : hs ≠ []) (hmne : ms ≠ [])
    (h1d : ∀ c ∈ d1, isDigitC c = true) (h2d : ∀ c ∈ d2, isDigitC c = true)
    (hyd : ∀ c ∈ ys, isDigitC c = true)
    (hhd : ∀ c ∈ hs, isDigitC c = true) (hmd : ∀ c ∈ ms, isDigitC c = true)
    (hy1 : 1 ≤ digitsVal ys) (hy9999 : digitsVal ys ≤ 9999)
    (hmo1 : 1 ≤ digitsVal d2) (hmo12 : digitsVal d2 ≤ 12)
    (hdl : 1 ≤ digitsVal d1)
    (hdim : ((digitsVal d1 : Nat) : Int)
        ≤ daysInMonth ((digitsVal ys : Nat) : Int) ((digitsVal d2 : Nat) : Int))
    (hh23 : digitsVal hs ≤ 23) (hm59 : digitsVal ms ≤ 59) :
    parse_datetime ((d1 ++ '.' :: (d2 ++ '.' :: ys)) ++ ' ' :: (hs ++ ':' :: ms)) now fb
      = (some ⟨⟨(digitsVal ys : Int), (digitsVal d2 : Int), (digitsVal d1 : Int)⟩,
          (digitsVal hs : Int), (digitsVal ms : Int), true⟩, none) := by
  cases d1 with
  | nil => exact absurd rfl h1ne
  | cons e d1' =>
  have he : isDigitC e = true := h1d e (List.mem_cons_self _ _)
  have hdp : ∀ x ∈ (e :: d1') ++ '.' :: (d2 ++ '.' :: ys),
      isDigitC x = true ∨ x = '.' := by
    intro x hx
    rcases List.mem_append.mp hx with h | h
    · exact Or.inl (h1d x h)
    · rcases List.mem_cons.mp h with h | h
      · exact Or.inr h
      · rcases List.mem_append.mp h with h' | h'
        · exact Or.inl (h2d x h')
        · rcases List.mem_cons.mp h' with h'' | h''
          · exact Or.inr h''
          · exact Or.inl (hyd x h'')
  have htp : ∀ x ∈ hs ++ ':' :: ms, isDigitC x = true ∨ x = ':' := by
    intro x hx
    rcases List.mem_append.mp hx with h | h
    · exact Or.inl (hhd x h)
    · rcases List.mem_cons.mp h with h | h
      · exact Or.inr h
      · exact Or.inl (hmd x h)
  have hdpws : ∀ x ∈ (e :: d1') ++ '.' :: (d2 ++ '.' :: ys), isPyWS x = false := by
    intro x hx
    rcases hdp x hx with h | h
    · exact isDigitC_not_ws x h
    · subst h; rfl
  have htpws : ∀ x ∈ hs ++ ':' :: ms, isPyWS x = false := by
    intro x hx
    rcases htp x hx with h | h
    · exact isDigitC_not_ws x h
    · subst h; rfl
  have hws2 : pySplitWS (((e :: d1') ++ '.' :: (d2 ++ '.' :: ys)) ++ ' ' :: (hs ++ ':' :: ms))
      = [(e :: d1') ++ '.' :: (d2 ++ '.' :: ys), hs ++ ':' :: ms] :=
    pySplitWS_pair _ _ (by simp) (by simp [hhne]) hdpws htpws
  have hhead : ((((e :: d1') ++ '.' :: (d2 ++ '.' :: ys)) ++ ' ' :: (hs ++ ':' :: ms))).head?
      = some e := by
    simp
  have hlast : ((((e :: d1') ++ '.' :: (d2 ++ '.' :: ys)) ++ ' ' :: (hs ++ ':' :: ms))).getLast?
      = ms.getLast? := by
    rw [getLast?_concat_right ((e :: d1') ++ '.' :: (d2 ++ '.' :: ys))
      (' ' :: (hs ++ ':' :: ms)) (by simp)]
    rw [← List.singleton_append, getLast?_concat_right [' '] (hs ++ ':' :: ms)
      (by simp [hhne])]
    rw [show (':' :: ms : List Char) = [':'] ++ ms from rfl]
    rw [getLast?_concat_right hs ([':'] ++ ms) (by simp)]
    rw [getLast?_concat_right [':'] ms hmne]
  have hstrip : pyStrip (((e :: d1') ++ '.' :: (d2 ++ '.' :: ys)) ++ ' ' :: (hs ++ ':' :: ms))
      = ((e :: d1') ++ '.' :: (d2 ++ '.' :: ys)) ++ ' ' :: (hs ++ ':' :: ms) := by
    apply pyStrip_eq_self
    · intro x hx
      rw [hhead] at hx
      have hex : e = x := by simpa using hx
      exact hex ▸ isDigitC_not_ws e he
    · intro x hx
      rw [hlast] at hx
      exact isDigitC_not_ws x (hmd x (List.mem_of_mem_getLast? hx))
  have hlow : pyLower (((e :: d1') ++ '.' :: (d2 ++ '.' :: ys)) ++ ' ' :: (hs ++ ':' :: ms))
      = ((e :: d1') ++ '.' :: (d2 ++ '.' :: ys)) ++ ' ' :: (hs ++ ':' :: ms) := by
    apply pyLower_eq_self
    intro x hx
    rcases List.mem_append.mp hx with h | h
    · rcases hdp x h with h' | h'
      · exact le_trans (isDigitC_toNat x h').2 (by omega)
      · subst h'; decide
    · rcases List.mem_cons.mp h with h' | h'
      · subst h'; decide
      · rcases htp x h' with h'' | h''
        · exact le_trans (isDigitC_toNat x h'').2 (by omega)
        · subst h''; decide
  have hmap : ((e :: d1') ++ '.' :: (d2 ++ '.' :: ys)).map (fun c => if c = '/' then '.' else c)
      = (e :: d1') ++ '.' :: (d2 ++ '.' :: ys) := by
    rw [List.map_congr_left, List.map_id]
    intro x hx
    rcases hdp x hx with h | h
    · exact if_neg (isDigitC_ne x '/' h (by decide))
    · subst h; rfl
  have hsplitdot : splitOnC '.' ((e :: d1') ++ '.' :: (d2 ++ '.' :: ys))
      = [e :: d1', d2, ys] := by
    rw [splitOnC_append '.' (e :: d1') (d2 ++ '.' :: ys)
      (fun hmem => absurd (h1d '.' hmem) (by decide))]
    rw [splitOnC_append '.' d2 ys
      (fun hmem => absurd (h2d '.' hmem) (by decide))]
    rw [splitOnC_not_mem '.' ys
      (fun hmem => absurd (hyd '.' hmem) (by decide))]
  have hsplitcol : splitOnC ':' (hs ++ ':' :: ms) = [hs, ms] := by
    rw [splitOnC_append ':' hs ms
      (fun hmem => absurd (hhd ':' hmem) (by decide))]
    rw [splitOnC_not_mem ':' ms
      (fun hmem => absurd (hmd ':' hmem) (by decide))]
  have hcond : (1 : Int) ≤ ((digitsVal ys : Nat) : Int)
      ∧ ((digitsVal ys : Nat) : Int) ≤ 9999
      ∧ (1 : Int) ≤ ((digitsVal d2 : Nat) : Int) ∧ ((digitsVal d2 : Nat) : Int) ≤ 12
      ∧ (1 : Int) ≤ ((digitsVal (e :: d1') : Nat) : Int)
      ∧ ((digitsVal (e :: d1') : Nat) : Int)
          ≤ daysInMonth ((digitsVal ys : Nat) : Int) ((digitsVal d2 : Nat) : Int)
      ∧ (0 : Int) ≤ ((digitsVal hs : Nat) : Int) ∧ ((digitsVal hs : Nat) : Int) ≤ 23
      ∧ (0 : Int) ≤ ((digitsVal ms : Nat) : Int) ∧ ((digitsVal ms : Nat) : Int) ≤ 59 :=
    ⟨by exact_mod_cast hy1, by exact_mod_cast hy9999,
      by exact_mod_cast hmo1, by exact_mod_cast hmo12,
      by exact_mod_cast hdl, hdim, by positivity, by exact_mod_cast hh23,
      by positivity, by exact_mod_cast hm59⟩
  unfold parse_datetime
  rw [hstrip, hlow]
  unfold parse_datetime_lowered
  rw [if_neg (not_immediate_keyword_head _ e hhead he)]
  unfold parseBody
  rw [russianDays_find_none_head _ e hhead he]
  rw [afterDayScan_pair _ ((e :: d1') ++ '.' :: (d2 ++ '.' :: ys)) (hs ++ ':' :: ms)
    _ _ fb hws2]
  rw [hmap, hsplitdot]
  unfold dateOrFallback
  rw [if_pos (by simp)]
  unfold branchDate
  simp only [List.getD_cons_zero, List.getD_cons_succ, List.length_cons, List.length_nil,
    pyInt_digits (e :: d1') (by simp) h1d, pyInt_digits d2 h2ne h2d,
    pyInt_digits ys hyne hyd, pyInt_digits hs hhne hhd, pyInt_digits ms hmne hmd,
    Except.bind, hsplitcol]
  rw [if_pos (by omega)]
  unfold mkDateTimeE
  simp only []
  rw [if_pos hcond]
  rfl

/-- C5: For every bare HH:MM input (digit strings for hours and minutes in
range), parse_datetime returns today at that time, rolling forward exactly
one day iff that instant compares less-or-equal to now (the code's
"already passed" test, at the resolver's minute precision; the year bound
keeps the one-day rollover inside the representable calendar); for every
two-token DATE TIME input with DATE of the form DD.MM (year defaulting to
now's year) or DD.MM.YYYY and TIME of the form HH:MM, all components being
in-range digit strings, it returns that absolute instant with no
already-passed rollover. -/
theorem c5_bare_time_and_date_time_shapes :
    (∀ (now : PyDateTime) (fb : List Char → Except PyExc PyDateTime) (hs ms : List Char),
      hs ≠ [] → ms ≠ [] →
      (∀ c ∈ hs, isDigitC c = true) → (∀ c ∈ ms, isDigitC c = true) →
      digitsVal hs ≤ 23 → digitsVal ms ≤ 59 → now.date.year ≤ 9998 →
      ((toMin ⟨now.date, (digitsVal hs : Int), (digitsVal ms : Int), true⟩ ≤ toMin now →
        ∃ d2, nextDayE now.date = .ok d2 ∧
          parse_datetime (hs ++ ':' :: ms) now fb
            = (some ⟨d2, (digitsVal hs : Int), (digitsVal ms : Int), true⟩, none))
      ∧ (¬ toMin ⟨now.date, (digitsVal hs : Int), (digitsVal ms : Int), true⟩ ≤ toMin now →
          parse_datetime (hs ++ ':' :: ms) now fb
            = (some ⟨now.date, (digitsVal hs : Int), (digitsVal ms : Int), true⟩, none))))
    ∧ (∀ (now : PyDateTime) (fb : List Char → Except PyExc PyDateTime)
        (d1 d2 hs ms : List Char),
      d1 ≠ [] → d2 ≠ [] → hs ≠ [] → ms ≠ [] →
      (∀ c ∈ d1, isDigitC c = true) → (∀ c ∈ d2, isDigitC c = true) →
      (∀ c ∈ hs, isDigitC c = true) → (∀ c ∈ ms, isDigitC c = true) →
      now.Valid →
      1 ≤ digitsVal d2 → digitsVal d2 ≤ 12 →
      1 ≤ digitsVal d1 →
      ((digitsVal d1 : Nat) : Int) ≤ daysInMonth now.date.year (digitsVal d2) →
      digitsVal hs ≤ 23 → digitsVal ms ≤ 59 →
      parse_datetime ((d1 ++ '.' :: d2) ++ ' ' :: (hs ++ ':' :: ms)) now fb
        = (some ⟨⟨now.date.year, (digitsVal d2 : Int), (digitsVal d1 : Int)⟩,
            (digitsVal hs : Int), (digitsVal ms : Int), true⟩, none))
    ∧ (∀ (now : PyDateTime) (fb : List Char → Except PyExc PyDateTime)
        (d1 d2 ys hs ms : List Char),
      d1 ≠ [] → d2 ≠ [] → ys ≠ [] → hs ≠ [] → ms ≠ [] →
      (∀ c ∈ d1, isDigitC c = true) → (∀ c ∈ d2, isDigitC c = true) →
      (∀ c ∈ ys, isDigitC c = true) →
      (∀ c ∈ hs, isDigitC c = true) → (∀ c ∈ ms, isDigitC c = true) →
      1 ≤ digitsVal ys → digitsVal ys ≤ 9999 →
      1 ≤ digitsVal d2 → digitsVal d2 ≤ 12 →
      1 ≤ digitsVal d1 →
      ((digitsVal d1 : Nat) : Int)
        ≤ daysInMonth ((digitsVal ys : Nat) : Int) ((digitsVal d2 : Nat) : Int) →
      digitsVal hs ≤ 23 → digitsVal ms ≤ 59 →
      parse_datetime ((d1 ++ '.' :: (d2 ++ '.' :: ys)) ++ ' ' :: (hs ++ ':' :: ms)) now fb
        = (some ⟨⟨(digitsVal ys : Int), (digitsVal d2 : Int), (digitsVal d1 : Int)⟩,
            (digitsVal hs : Int), (digitsVal ms : Int), true⟩, none)) := by
  refine ⟨?_, ?_, ?_⟩
  · intro now fb hs ms hhne hmne hhd hmd hh23 hm59 hy
    exact c5A_bare_time now fb hs ms hhne hmne hhd hmd hh23 hm59 hy
  · intro now fb d1 d2 hs ms h1ne h2ne hhne hmne h1d h2d hhd hmd hnv hmo1 hmo12 hdl
      hdim hh23 hm59
    exact c5B_date_time now fb d1 d2 hs ms h1ne h2ne hhne hmne h1d h2d hhd hmd hnv
      hmo1 hmo12 hdl hdim hh23 hm59
  · intro now fb d1 d2 ys hs ms h1ne h2ne hyne hhne hmne h1d h2d hyd hhd hmd hy1
      hy9999 hmo1 hmo12 hdl hdim hh23 hm59
    exact c5B2_date_time_year now fb d1 d2 ys hs ms h1ne h2ne hyne hhne hmne h1d h2d
      hyd hhd hmd hy1 hy9999 hmo1 hmo12 hdl hdim hh23 hm59

theorem c5_witness :
    parse_datetime (['1','5'] ++ ':' :: ['3','0']) ⟨⟨2031, 1, 24⟩, 12, 0, true⟩
        (fun _ => Except.error PyExc.valueError)
      = (some ⟨⟨2031, 1, 24⟩, 15, 30, true⟩, none)
    ∧ parse_datetime (['0','7'] ++ ':' :: ['0','0']) ⟨⟨2031, 1, 24⟩, 12, 0, true⟩
        (fun _ => Except.error PyExc.valueError)
      = (some ⟨⟨2031, 1, 25⟩, 7, 0, true⟩, none)
    ∧ parse_datetime ((['2','5'] ++ '.' :: ['0','1']) ++ ' ' :: (['1','5'] ++ ':' :: ['3','0']))
        ⟨⟨2031, 1, 24⟩, 12, 0, true⟩ (fun _ => Except.error PyExc.valueError)
      = (some ⟨⟨2031, 1, 25⟩, 15, 30, true⟩, none)
    ∧ parse_datetime ((['2','5'] ++ '.' :: (['0','1'] ++ '.' :: ['2','0','3','2']))
          ++ ' ' :: (['1','5'] ++ ':' :: ['3','0']))
        ⟨⟨2031, 1, 24⟩, 12, 0, true⟩ (fun _ => Except.error PyExc.valueError)
      = (some ⟨⟨2032, 1, 25⟩, 15, 30, true⟩, none) := by
  have h := c5_bare_time_and_date_time_shapes
  refine ⟨?_, ?_, ?_, ?_⟩
  · exact (h.1 ⟨⟨2031, 1, 24⟩, 12, 0, true⟩ (fun _ => Except.error PyExc.valueError)
      ['1','5'] ['3','0'] (by decide) (by decide) (by decide) (by decide)
      (by decide) (by decide) (by decide)).2 (by decide)
  · obtain ⟨d2, hok, heq⟩ := (h.1 ⟨⟨2031, 1, 24⟩, 12, 0, true⟩
      (fun _ => Except.error PyExc.valueError)
      ['0','7'] ['0','0'] (by decide) (by decide) (by decide) (by decide)
      (by decide) (by decide) (by decide)).1 (by decide)
    have hd2 : (⟨2031, 1, 25⟩ : PyDate) = d2 :=
      Except.ok.inj ((show nextDayE ⟨2031, 1, 24⟩ = Except.ok ⟨2031, 1, 25⟩ from rfl).symm.trans hok)
    rw [← hd2] at heq
    exact heq
  · exact h.2.1 ⟨⟨2031, 1, 24⟩, 12, 0, true⟩ (fun _ => Except.error PyExc.valueError)
      ['2','5'] ['0','1'] ['1','5'] ['3','0'] (by decide) (by decide) (by decide)
      (by decide) (by decide) (by decide) (by decide) (by decide) (by decide)
      (by decide) (by decide) (by decide) (by decide) (by decide) (by decide)
  · exact h.2.2 ⟨⟨2031, 1, 24⟩, 12, 0, true⟩ (fun _ => Except.error PyExc.valueError)
      ['2','5'] ['0','1'] ['2','0','3','2'] ['1','5'] ['3','0'] (by decide) (by decide)
      (by decide) (by decide) (by decide) (by decide) (by decide) (by decide)
      (by decide) (by decide) (by decide) (by decide) (by decide) (by decide)
      (by decide) (by decide) (by decide) (by decide)
